import Mathlib

/-!
# Verification of the gcide-parser block pipeline

A shallow embedding of the GCIDE markup parser and emitters
(`src/parser.rs`, `src/exporter.rs`, `src/bin/tohtml.rs`) over `List Char`,
together with proofs settling the frozen claims about the specification.

Strings are modelled as `List Char` (`Str`). The nom combinators used by the
source (`is_not!`, `alphanumeric1`, `tag!`, `take_until!`, `opt!`) are
embedded as total functions on `Str`; `alphanumeric1` is embedded with
`Char.isAlphanum` (ASCII letters and digits), which agrees with nom on every
input relevant here. Iterative loops (`many0!`, `String::replace`, the
builder's `while let`) are embedded with an explicit fuel argument equal to
the input length plus one; every loop step consumes at least one character,
so the fuel never runs out (fuel-exhaustion is a distinguished result where
it could matter, and stability lemmas are proved where proofs need them).
Rust panics (failed `assert_eq!`, out-of-bounds `Vec` indexing) are embedded
as `none` / a distinguished `panicked` result.
-/

namespace Gcide

abbrev Str := List Char

/-- The character class of `is_not!("<>")`: anything except `<` and `>`. -/
def is_not_lt_gt (c : Char) : Bool := c ≠ '<' && c ≠ '>'

/-- The character class of `is_not!("\"")`: anything except `"`. -/
def not_quote (c : Char) : Bool := c ≠ '"'

/-- `pat` occurs as a contiguous substring of `s`. -/
def hasInfix (pat : Str) : Str → Bool
  | [] => pat.isPrefixOf []
  | c :: cs => pat.isPrefixOf (c :: cs) || hasInfix pat cs

/-- `take_until!(pat)` on complete input: split `s` as `(before, from)` at the
first occurrence of `pat`; `none` when `pat` does not occur. -/
def splitUntil (pat : Str) : Str → Option (Str × Str)
  | [] => if pat.isPrefixOf [] then some ([], []) else none
  | c :: cs =>
    if pat.isPrefixOf (c :: cs) then some ([], c :: cs)
    else match splitUntil pat cs with
      | some (a, b) => some (c :: a, b)
      | none => none

/-- `tag!(lit)`: consume the literal prefix `lit` or fail. -/
def tag (lit : Str) (s : Str) : Option Str :=
  if lit.isPrefixOf s then some (s.drop lit.length) else none

/-- `BlockItem` from `src/parser.rs` (the block-level item tree). -/
inductive BlockItem where
  | Tagged : Str → List BlockItem → BlockItem
  | Comment : Str → BlockItem
  | Entity : Str → BlockItem
  | EntityBr : BlockItem
  | EntityUnk : BlockItem
  | ExternalLink : Str → Str → BlockItem
  | Plain : Str → BlockItem
  | Source : Str → BlockItem
  | UnpairedTagOpen : Str → BlockItem
  | UnpairedTagClose : Str → BlockItem

mutual

/-- Structural equality of `BlockItem` (the derived `PartialEq` of the source). -/
def beqItem : BlockItem → BlockItem → Bool
  | .Tagged n1 l1, .Tagged n2 l2 => n1 = n2 && beqList l1 l2
  | .Comment a, .Comment b => a = b
  | .Entity a, .Entity b => a = b
  | .EntityBr, .EntityBr => true
  | .EntityUnk, .EntityUnk => true
  | .ExternalLink a b, .ExternalLink c d => a = c && b = d
  | .Plain a, .Plain b => a = b
  | .Source a, .Source b => a = b
  | .UnpairedTagOpen a, .UnpairedTagOpen b => a = b
  | .UnpairedTagClose a, .UnpairedTagClose b => a = b
  | _, _ => false

def beqList : List BlockItem → List BlockItem → Bool
  | [], [] => true
  | a :: l1, b :: l2 => beqItem a b && beqList l1 l2
  | _, _ => false

end

mutual

def sizeItem : BlockItem → Nat
  | .Tagged _ l => 1 + sizeListB l
  | _ => 1

def sizeListB : List BlockItem → Nat
  | [] => 0
  | a :: l => sizeItem a + sizeListB l

end

theorem sizeItem_pos (a : BlockItem) : 0 < sizeItem a := by
  cases a <;> simp [sizeItem]

/-- Simultaneous induction for the nested inductive `BlockItem` /
`List BlockItem`, via the size measure. -/
theorem blockItem_ind (P : BlockItem → Prop) (Q : List BlockItem → Prop)
    (tagged : ∀ n l, Q l → P (.Tagged n l))
    (comm : ∀ t, P (.Comment t)) (ent : ∀ n, P (.Entity n)) (br : P .EntityBr)
    (unk : P .EntityUnk) (link : ∀ u t, P (.ExternalLink u t))
    (pl : ∀ t, P (.Plain t)) (src : ∀ t, P (.Source t))
    (uo : ∀ n, P (.UnpairedTagOpen n)) (uc : ∀ n, P (.UnpairedTagClose n))
    (hnil : Q []) (hcons : ∀ a l, P a → Q l → Q (a :: l)) :
    (∀ a, P a) ∧ (∀ l, Q l) := by
  have main : ∀ n, (∀ a, sizeItem a ≤ n → P a) ∧ (∀ l, sizeListB l ≤ n → Q l) := by
    intro n
    induction n with
    | zero =>
      refine ⟨fun a h => absurd h (by have := sizeItem_pos a; omega), fun l h => ?_⟩
      cases l with
      | nil => exact hnil
      | cons a l => exfalso; have := sizeItem_pos a; simp [sizeListB] at h; omega
    | succ n ih =>
      have hitem : ∀ a, sizeItem a ≤ n + 1 → P a := by
        intro a h
        cases a with
        | Tagged nm l => exact tagged nm l (ih.2 l (by simp [sizeItem] at h; omega))
        | Comment t => exact comm t
        | Entity n => exact ent n
        | EntityBr => exact br
        | EntityUnk => exact unk
        | ExternalLink u t => exact link u t
        | Plain t => exact pl t
        | Source t => exact src t
        | UnpairedTagOpen n => exact uo n
        | UnpairedTagClose n => exact uc n
      refine ⟨hitem, fun l h => ?_⟩
      cases l with
      | nil => exact hnil
      | cons a l =>
        simp [sizeListB] at h
        have ha := sizeItem_pos a
        exact hcons a l (hitem a (by omega)) (ih.2 l (by omega))
  exact ⟨fun a => (main (sizeItem a)).1 a le_rfl, fun l => (main (sizeListB l)).2 l le_rfl⟩

theorem beqItem_iff : (∀ a b, beqItem a b = true ↔ a = b) ∧
    (∀ l m, beqList l m = true ↔ l = m) := by
  refine blockItem_ind (fun a => ∀ b, beqItem a b = true ↔ a = b)
    (fun l => ∀ m, beqList l m = true ↔ l = m) ?_ ?_ ?_ ?_ ?_ ?_ ?_ ?_ ?_ ?_ ?_ ?_
  · intro n l ih b
    cases b <;> simp [beqItem]
    exact fun _ => ih _
  · intro t b; cases b <;> simp [beqItem]
  · intro n b; cases b <;> simp [beqItem]
  · intro b; cases b <;> simp [beqItem]
  · intro b; cases b <;> simp [beqItem]
  · intro u t b; cases b <;> simp [beqItem]
  · intro t b; cases b <;> simp [beqItem]
  · intro t b; cases b <;> simp [beqItem]
  · intro n b; cases b <;> simp [beqItem]
  · intro n b; cases b <;> simp [beqItem]
  · intro m; cases m <;> simp [beqList]
  · intro a l iha ihl m
    cases m with
    | nil => simp [beqList]
    | cons b m => simp [beqList, iha b, ihl m]

instance : BEq BlockItem := ⟨beqItem⟩

instance : LawfulBEq BlockItem where
  eq_of_beq h := (beqItem_iff.1 _ _).mp h
  rfl := (beqItem_iff.1 _ _).mpr rfl

instance : DecidableEq BlockItem := fun a b =>
  decidable_of_iff (beqItem a b = true) (beqItem_iff.1 a b)

/-- The `allowed_to_dangle` array of the source: tag names whose unpaired
occurrences are emitted without an `[ERROR->]` marker. -/
def dangle_allowed : List Str := ["collapse".data, "cs".data, "note".data, "usage".data]

mutual

/-- `impl Display for BlockItem` in `src/parser.rs` (the GCIDE emitter at
item level). -/
def displayItem : BlockItem → Str
  | .Comment text => "<--".data ++ text ++ "-->".data
  | .Entity name => "<".data ++ name ++ "/".data
  | .EntityBr => "<br/\n".data
  | .EntityUnk => "<?/".data
  | .ExternalLink url text => "<a href=\"".data ++ url ++ "\">".data ++ text ++ "</a>".data
  | .Plain text => text
  | .Source text => "[ERROR->]<source>".data ++ text ++ "</source>".data
  | .Tagged name items =>
      "<".data ++ name ++ ">".data ++ displayList items ++ "</".data ++ name ++ ">".data
  | .UnpairedTagOpen name =>
      if dangle_allowed.contains name then "<".data ++ name ++ ">".data
      else "[ERROR->]<".data ++ name ++ ">".data
  | .UnpairedTagClose name =>
      if dangle_allowed.contains name then "</".data ++ name ++ ">".data
      else "[ERROR->]</".data ++ name ++ ">".data

/-- Concatenated display of a list of items (the item loop of the emitters). -/
def displayList : List BlockItem → Str
  | [] => []
  | it :: l => displayItem it ++ displayList l

end

mutual

/-- One item as the flat token sequence the sequencer produces for its
emission: a `Tagged` node flattens to open token, flattened body, close
token; every other item is a single token. -/
def flattenItem : BlockItem → List BlockItem
  | .Tagged name items => .UnpairedTagOpen name :: (flattenList items ++ [.UnpairedTagClose name])
  | it => [it]

def flattenList : List BlockItem → List BlockItem
  | [] => []
  | it :: l => flattenItem it ++ flattenList l

end

def alnum_name (n : Str) : Bool := !n.isEmpty && n.all Char.isAlphanum

def is_plain_item : BlockItem → Bool
  | .Plain _ => true
  | _ => false

def head_is_plain : List BlockItem → Bool
  | .Plain _ :: _ => true
  | _ => false

/-- The `col` special case of the tag pairer fires exactly on a `col` tag
whose sole enclosed item is a `b` tag; such trees are not producible by the
pairer and are excluded from well-formedness. -/
def is_col_b (n : Str) (items : List BlockItem) : Bool :=
  n = "col".data &&
    (match items with
     | [.Tagged b_nm _] => b_nm = "b".data
     | _ => false)

mutual

/-- Well-formedness: the invariants of an item tree produced by a successful
parse with no residuals — `Plain` runs are nonempty and free of `<`/`>`,
comments do not contain their terminator, entity and tag names are nonempty
alphanumeric, `Entity "br"` is excluded (the lexer yields `EntityBr` for
`<br/`), link fields satisfy the lexer's character classes, and no
`Source`/`UnpairedTagOpen`/`UnpairedTagClose` residuals occur.  `Tagged`
names exclude `"source"` and the `col`-of-sole-`b` shape, which the pairer
never produces as such. -/
def wfItem : BlockItem → Bool
  | .Comment text => !(hasInfix "-->".data text)
  | .Entity name => alnum_name name && name ≠ "br".data
  | .EntityBr => true
  | .EntityUnk => true
  | .ExternalLink url text =>
      !url.isEmpty && url.all (fun c => c ≠ '"') && !text.isEmpty && text.all is_not_lt_gt
  | .Plain text => !text.isEmpty && text.all is_not_lt_gt
  | .Source _ => false
  | .Tagged name items =>
      alnum_name name && name ≠ "source".data && !(is_col_b name items) && wfList items
  | .UnpairedTagOpen _ => false
  | .UnpairedTagClose _ => false

/-- Well-formed item list: all items well-formed and no two adjacent `Plain`
items (the lexer's maximal-munch plain runs never abut). -/
def wfList : List BlockItem → Bool
  | [] => true
  | it :: l => wfItem it && !(is_plain_item it && head_is_plain l) && wfList l

end

/-- `Block` from `src/parser.rs`. -/
structure Block where
  items : List BlockItem
  sources : List Str
  deriving DecidableEq

/-- The source fragments of `impl Display for Block`: `sources.join(" + ")`
with each element wrapped in `<source>…</source>`. -/
def sources_display : List Str → Str
  | [] => []
  | [s] => "<source>".data ++ s ++ "</source>".data
  | s :: ss => "<source>".data ++ s ++ "</source>".data ++ " + ".data ++ sources_display ss

/-- `impl Display for Block` in `src/parser.rs` (the GCIDE emitter at block
level). -/
def display_block (b : Block) : Str :=
  "<p>".data ++ displayList b.items ++
    (if b.sources.isEmpty then "</p>".data
     else "<br/\n[".data ++ sources_display b.sources ++ "]</p>".data)

def wfBlock (b : Block) : Bool :=
  wfList b.items && (b.sources.all (fun s => !s.isEmpty && s.all is_not_lt_gt))

/-! ## The lexer (`named!` parsers of `src/parser.rs`) -/

/-- `named!(plain …, map!(is_not!("<>"), BlockItem::Plain))`. -/
def plain (s : Str) : Option (BlockItem × Str) :=
  let t := s.takeWhile is_not_lt_gt
  if t.isEmpty then none else some (.Plain t, s.dropWhile is_not_lt_gt)

/-- `alphanumeric1` of nom: one or more alphanumeric characters. -/
def alphanumeric1 (s : Str) : Option (Str × Str) :=
  let t := s.takeWhile Char.isAlphanum
  if t.isEmpty then none else some (t, s.dropWhile Char.isAlphanum)

/-- `named!(open_tag …, delimited!(tag!("<"), alphanumeric1, tag!(">")))`. -/
def open_tag (s : Str) : Option (BlockItem × Str) :=
  match tag "<".data s with
  | none => none
  | some s1 =>
    match alphanumeric1 s1 with
    | none => none
    | some (n, s2) =>
      match tag ">".data s2 with
      | none => none
      | some s3 => some (.UnpairedTagOpen n, s3)

/-- `named!(close_tag …, delimited!(tag!("</"), alphanumeric1, tag!(">")))`. -/
def close_tag (s : Str) : Option (BlockItem × Str) :=
  match tag "</".data s with
  | none => none
  | some s1 =>
    match alphanumeric1 s1 with
    | none => none
    | some (n, s2) =>
      match tag ">".data s2 with
      | none => none
      | some s3 => some (.UnpairedTagClose n, s3)

/-- `named!(entity …)`: `<?/`, then `<br/` with optional newline, then
`<` name `/`. -/
def entity (s : Str) : Option (BlockItem × Str) :=
  match tag "<?/".data s with
  | some s1 => some (.EntityUnk, s1)
  | none =>
    match tag "<br/".data s with
    | some s1 =>
      match s1 with
      | '\n' :: s2 => some (.EntityBr, s2)
      | _ => some (.EntityBr, s1)
    | none =>
      match tag "<".data s with
      | none => none
      | some s1 =>
        match alphanumeric1 s1 with
        | none => none
        | some (n, s2) =>
          match tag "/".data s2 with
          | none => none
          | some s3 => some (.Entity n, s3)

/-- `named!(comment …, delimited!(tag!("<--"), take_until!("-->"), tag!("-->")))`. -/
def comment (s : Str) : Option (BlockItem × Str) :=
  match tag "<--".data s with
  | none => none
  | some s1 =>
    match splitUntil "-->".data s1 with
    | none => none
    | some (t, s2) =>
      match tag "-->".data s2 with
      | none => none
      | some s3 => some (.Comment t, s3)

/-- `named!(ext_link …)`: `<a href="` url `">` text `</a>`. -/
def ext_link (s : Str) : Option (BlockItem × Str) :=
  match tag "<a href=\"".data s with
  | none => none
  | some s1 =>
    let url := s1.takeWhile not_quote
    if url.isEmpty then none else
    match tag "\">".data (s1.dropWhile not_quote) with
    | none => none
    | some s2 =>
      let text := s2.takeWhile is_not_lt_gt
      if text.isEmpty then none else
      match tag "</a>".data (s2.dropWhile is_not_lt_gt) with
      | none => none
      | some s3 => some (.ExternalLink url text, s3)

/-- `named!(block_item …, alt!(plain | open_tag | close_tag | entity |
comment | ext_link))`. -/
def block_item (s : Str) : Option (BlockItem × Str) :=
  match plain s with
  | some r => some r
  | none =>
    match open_tag s with
    | some r => some r
    | none =>
      match close_tag s with
      | some r => some r
      | none =>
        match entity s with
        | some r => some r
        | none =>
          match comment s with
          | some r => some r
          | none => ext_link s

/-- `named!(parse_items …, many0!(block_item))`, with fuel; every successful
`block_item` consumes at least one character, so fuel `s.length + 1` never
runs out (`parse_items_fuel_stable`). -/
def parse_items_fuel : Nat → Str → List BlockItem × Str
  | 0, s => ([], s)
  | f + 1, s =>
    match block_item s with
    | none => ([], s)
    | some (it, rest) =>
      let r := parse_items_fuel f rest
      (it :: r.1, r.2)

def parse_items (s : Str) : List BlockItem × Str :=
  parse_items_fuel (s.length + 1) s

/-! ## The tag pairer (`pair_up_items`) and block processing -/

/-- `linear_search_rev_by`: index of the last element satisfying the
predicate. -/
def linear_search_rev_by {α : Type} (haystack : List α) (is_needle : α → Bool) : Option Nat :=
  match haystack with
  | [] => none
  | x :: xs =>
    match linear_search_rev_by xs is_needle with
    | some i => some (i + 1)
    | none => if is_needle x then some 0 else none

/-- `linear_search_rev`: last index equal to `needle`. -/
def linear_search_rev (haystack : List BlockItem) (needle : BlockItem) : Option Nat :=
  linear_search_rev_by haystack (fun item => item == needle)

def err_plaintext : Str := "[ERROR->]plaintext".data

/-- One step of `pair_up_items`'s loop: push any non-close item; for
`UnpairedTagClose(name)` search the stack top-down for a matching open and
reduce.  The Rust comparison `open_idx == stack.len() - 2` is written
`open_idx + 2 = stack.length` (equivalent: the stack is nonempty at that
point, and for a one-element stack both sides disagree in Rust's wrapping
arithmetic and here). -/
def pair_step (stack : List BlockItem) (item : BlockItem) : List BlockItem :=
  match item with
  | .UnpairedTagClose name =>
    (match linear_search_rev stack (.UnpairedTagOpen name) with
     | some open_idx =>
       if name = "source".data then
         if open_idx + 2 = stack.length then
           match stack.getLast? with
           | some (.Plain text) => stack.take open_idx ++ [.Source text]
           | _ => stack.take open_idx ++ [.Source err_plaintext]
         else stack.take open_idx ++ [.Source err_plaintext]
       else
         if open_idx + 2 = stack.length ∧ name = "col".data then
           match stack.getLast? with
           | some (.Tagged b_nm col_items) =>
             if b_nm = "b".data then stack.take open_idx ++ [.Tagged "col".data col_items]
             else stack.take open_idx ++ [.Tagged name (stack.drop (open_idx + 1))]
           | _ => stack.take open_idx ++ [.Tagged name (stack.drop (open_idx + 1))]
         else stack.take open_idx ++ [.Tagged name (stack.drop (open_idx + 1))]
     | none => stack ++ [item])
  | _ => stack ++ [item]

/-- `pair_up_items` of `src/parser.rs`. -/
def pair_up_items (items : List BlockItem) : List BlockItem :=
  items.foldl pair_step []

/-- `is_bracket_open` closure in `process_block_items`. -/
def is_bracket_open (item : BlockItem) : Bool :=
  item == .Plain "[".data || item == .Plain "\n[".data

def get_source : BlockItem → Option Str
  | .Source name => some name
  | _ => none

/-- The trailing-source extraction of `process_block_items` (lines 345–362).
`none` models the panic of `items[idx-1]` when `idx = 0` (usize underflow /
out-of-bounds index). -/
def extract_sources (items : List BlockItem) : Option (List BlockItem × List Str) :=
  match items.getLast? with
  | some (.Plain t) =>
    if t = "]".data then
      match linear_search_rev_by items is_bracket_open with
      | some idx =>
        match items.get? (idx + 1) with
        | some (.Source _) =>
          let sources := (items.drop (idx + 1)).filterMap get_source
          match idx with
          | 0 => none
          | j + 1 =>
            if items.get? j = some .EntityBr then some (items.take j, sources)
            else some (items.take (j + 1), sources)
        | _ => some (items, [])
      | none => some (items, [])
    else some (items, [])
  | _ => some (items, [])

/-- `process_block_items` of `src/parser.rs`; `none` models a panic of the
two `assert_eq!`s (and of the `items[idx-1]` access inside extraction). -/
def process_block_items (items : List BlockItem) : Option Block :=
  match items with
  | [] => none
  | first :: rest =>
    if first = .UnpairedTagOpen "p".data then
      match rest.getLast? with
      | none => none
      | some last =>
        if last = .UnpairedTagClose "p".data then
          match extract_sources (pair_up_items rest.dropLast) with
          | none => none
          | some (items2, sources) => some ⟨items2, sources⟩
        else none
    else none

/-- The parse direction of the claims' round-trip, at the scope of the cited
code: run `parse_items` over the emitted block and, when it consumes the
whole input, `process_block_items` (which strips the `<p>`/`</p>` wrapper,
pairs tags, and extracts trailing sources).  `none` models a parse failure
(leftover input) or a panic inside `process_block_items`. -/
def parse_block (s : Str) : Option Block :=
  let r := parse_items s
  if r.2.isEmpty then process_block_items r.1 else none

/-! ## The block iterator (`impl Iterator for Parser`) and the entry builder -/

/-- `ParserError` of `src/parser.rs`. -/
structure ParserError where
  leading : Str
  trailing : Str
  deriving DecidableEq

/-- `{}[ERROR->]{}` rendering of `impl Display for ParserError`. -/
def display_parser_error (e : ParserError) : Str :=
  e.leading ++ "[ERROR->]".data ++ e.trailing

inductive ParserStep where
  | done (rest : Str)
  | panicked
  | yield (r : Except ParserError Block) (rest : Str)

/-- `Parser::next`: seek the next `<p>`, cut at the first `</p>`, lex the
block and process it.  `.done` models `None` (no further block), `.panicked`
a panic inside `process_block_items`. -/
def parserNext (contents : Str) : ParserStep :=
  match splitUntil "<p>".data contents with
  | none => .done contents
  | some (_, remaining) =>
    match splitUntil "</p>".data remaining with
    | none => .yield (.error ⟨[], remaining⟩) []
    | some (pre, post) =>
      let block_str := pre ++ "</p>".data
      let rest := post.drop 4
      let r := parse_items block_str
      if r.2.isEmpty then
        match process_block_items r.1 with
        | some b => .yield (.ok b) rest
        | none => .panicked
      else
        .yield (.error ⟨block_str.take (block_str.length - r.2.length), r.2⟩) rest

/-- `BuilderError` of `src/parser.rs`. -/
inductive BuilderError where
  | FromParser (e : ParserError)
  | BadBlock (b : Block)
  deriving DecidableEq

/-- `Entry` of `src/parser.rs`. -/
structure Entry where
  main_word : Str
  blocks : List Block
  deriving DecidableEq

/-- The `for (idx, item)` loop of `EntryBuilder::next` over the first
block's items: returns `(bad_block, last_ent)`. -/
def scanEnts : List BlockItem → Nat → Option (Nat × Str) → Bool × Option (Nat × Str)
  | [], _, acc => (false, acc)
  | it :: rest, idx, acc =>
    match it with
    | .Tagged n ents =>
      if n = "ent".data then
        match ents with
        | [.Plain t] => scanEnts rest (idx + 1) (some (idx, t))
        | _ => (true, acc)
      else (false, acc)
    | .EntityBr => scanEnts rest (idx + 1) acc
    | _ => (false, acc)

inductive LoopRes where
  | panicked
  | fuelOut
  | finished (blocks : List Block) (buffer : Option (Except ParserError Block)) (rest : Str)

/-- The `while let Some(block_res) = self.parser.next()` loop of
`EntryBuilder::next`.  `block.items[0]` is a panicking index: `.panicked`
when the block is empty.  Fuel decreases once per yielded block; each yield
consumes input, so fuel `contents.length + 1` suffices (`.fuelOut` is
distinguished and never reached under that fuel). -/
def builderLoop : Nat → Str → LoopRes
  | 0, _ => .fuelOut
  | f + 1, contents =>
    match parserNext contents with
    | .done rest => .finished [] none rest
    | .panicked => .panicked
    | .yield (.error e) rest => .finished [] (some (.error e)) rest
    | .yield (.ok b) rest =>
      match b.items with
      | [] => .panicked
      | first :: _ =>
        match first with
        | .Tagged n _ =>
          if n = "ent".data then .finished [] (some (.ok b)) rest
          else
            match builderLoop f rest with
            | .panicked => .panicked
            | .fuelOut => .fuelOut
            | .finished bs buf r => .finished (b :: bs) buf r
        | _ =>
          match builderLoop f rest with
          | .panicked => .panicked
          | .fuelOut => .fuelOut
          | .finished bs buf r => .finished (b :: bs) buf r

inductive BuilderNextRes where
  | ended
  | panicked
  | fuelOut
  | yield (r : Except BuilderError Entry) (buffer : Option (Except ParserError Block)) (rest : Str)

/-- Tail of `EntryBuilder::next` after the head block produced a main word:
run the while-loop and assemble the `Entry`. -/
def entryBuilderFinish (mw : Str) (b0 : Block) (contents : Str) : BuilderNextRes :=
  match builderLoop (contents.length + 1) contents with
  | .panicked => .panicked
  | .fuelOut => .fuelOut
  | .finished bs buf rest => .yield (.ok ⟨mw, b0 :: bs⟩) buf rest

/-- Processing of the head block in `EntryBuilder::next`: scan for the
`<ent>` marker; `block.items[ent_idx+1]` is a panicking `Vec` index, modelled
`.panicked` when `ent_idx + 1` is out of bounds. -/
def entryBuilderGo (r : Except ParserError Block) (contents : Str) : BuilderNextRes :=
  match r with
  | .error e => .yield (.error (.FromParser e)) none contents
  | .ok b =>
    match scanEnts b.items 0 none with
    | (true, _) => .yield (.error (.BadBlock b)) none contents
    | (false, none) => .yield (.error (.BadBlock b)) none contents
    | (false, some (ent_idx, t)) =>
      match b.items.get? (ent_idx + 1) with
      | none => .panicked
      | some .EntityBr => entryBuilderFinish t ⟨b.items.drop (ent_idx + 2), b.sources⟩ contents
      | some _ => entryBuilderFinish t ⟨b.items.drop (ent_idx + 1), b.sources⟩ contents

/-- `EntryBuilder::next` of `src/parser.rs`, on the state
`(block_buffer, remaining contents)`. -/
def entryBuilderNext (buffer : Option (Except ParserError Block)) (contents : Str) :
    BuilderNextRes :=
  match buffer with
  | some r => entryBuilderGo r contents
  | none =>
    match parserNext contents with
    | .done _ => .ended
    | .panicked => .panicked
    | .yield r rest => entryBuilderGo r rest

/-! ## The exporter (`src/exporter.rs`) and HTML emitter (`src/bin/tohtml.rs`) -/

/-- The match arms of `entity_to_unicode` in `src/exporter.rs`, in source
order (the names are pairwise distinct, so order is immaterial). -/
def entity_table : List (String × String) := [
  ("lt", "<"),
  ("gt", ">"),
  ("ait", "a"),
  ("eit", "e"),
  ("iit", "i"),
  ("oit", "o"),
  ("uit", "u"),
  ("ae", "\u00E6"),
  ("AE", "\u00C6"),
  ("oe", "\u0153"),
  ("OE", "\u0152"),
  ("cced", "\u00E7"),
  ("aring", "\u00E5"),
  ("uring", "\u016F"),
  ("aacute", "\u00E1"),
  ("eacute", "\u00E9"),
  ("iacute", "\u00ED"),
  ("oacute", "\u00F3"),
  ("uacute", "\u00FA"),
  ("Eacute", "\u00C9"),
  ("acir", "\u00E2"),
  ("ecir", "\u00EA"),
  ("icir", "\u00EE"),
  ("ocir", "\u00F4"),
  ("ucir", "\u00FB"),
  ("agrave", "\u00E0"),
  ("egrave", "\u00E8"),
  ("igrave", "\u00EC"),
  ("ograve", "\u00F2"),
  ("ugrave", "\u00F9"),
  ("aum", "\u00E4"),
  ("eum", "\u00EB"),
  ("ium", "\u00EF"),
  ("oum", "\u00F6"),
  ("uum", "\u00FC"),
  ("atil", "\u00E3"),
  ("etil", "\u1EBD"),
  ("ltil", "l\u0303"),
  ("mtil", "m\u0303"),
  ("ntil", "\u00F1"),
  ("amac", "\u0101"),
  ("emac", "\u0113"),
  ("imac", "\u012B"),
  ("omac", "\u014D"),
  ("umac", "\u016B"),
  ("ymac", "\u0233"),
  ("aemac", "\u01E3"),
  ("oomac", "o\u035Eo"),
  ("acr", "\u0103"),
  ("ecr", "\u0115"),
  ("icr", "\u012D"),
  ("ocr", "\u014F"),
  ("ucr", "\u016D"),
  ("ycr", "y\u0306"),
  ("oocr", "o\u035Do"),
  ("ocar", "\u01D2"),
  ("asl", "a\u0304\u0307"),
  ("esl", "e\u0304\u0307"),
  ("isl", "i\u0304\u0307"),
  ("osl", "o\u0304\u0307"),
  ("usl", "u\u0304\u0307"),
  ("adot", "\u0227"),
  ("ndot", "\u1E45"),
  ("dsdot", "\u1E0D"),
  ("nsdot", "\u1E47"),
  ("rsdot", "\u1E5B"),
  ("tsdot", "\u1E6D"),
  ("usdot", "\u1EE5"),
  ("add", "a\u0324"),
  ("udd", "\u1E73"),
  ("nsm", "\u1E49"),
  ("hand", "\u261E"),
  ("deg", "\u00B0"),
  ("prime", "\u2032"),
  ("dprime", "\u2033"),
  ("ldquo", "\u201C"),
  ("rdquo", "\u201D"),
  ("lsquo", "\u2018"),
  ("rsquo", "\u2019"),
  ("sect", "\u00A7"),
  ("sharp", "\u266F"),
  ("flat", "\u266D"),
  ("pound", "\u00A3"),
  ("minus", "\u2212"),
  ("mdash", "\u2014"),
  ("th", "t\u035Fh"),
  ("par", "\u2016"),
  ("cre", "\u2323"),
  ("edh", "\u00F0"),
  ("thorn", "\u00FE"),
  ("yogh", "\u021D"),
  ("divide", "\u00F7"),
  ("times", "\u00D7"),
  ("rarr", "\u2192"),
  ("middot", "\u00B7"),
  ("root", "\u221A"),
  ("cuberoot", "\u221B"),
  ("alpha", "\u03B1"),
  ("beta", "\u03B2"),
  ("gamma", "\u03B3"),
  ("GAMMA", "\u0393"),
  ("delta", "\u03B4"),
  ("DELTA", "\u0394"),
  ("epsilon", "\u03B5"),
  ("zeta", "\u03B6"),
  ("eta", "\u03B7"),
  ("theta", "\u03B8"),
  ("THETA", "\u0398"),
  ("iota", "\u03B9"),
  ("kappa", "\u03BA"),
  ("lambda", "\u03BB"),
  ("LAMBDA", "\u039B"),
  ("mu", "\u03BC"),
  ("nu", "\u03BD"),
  ("xi", "\u03BE"),
  ("XI", "\u039E"),
  ("omicron", "\u03BF"),
  ("pi", "\u03C0"),
  ("PI", "\u03A0"),
  ("rho", "\u03C1"),
  ("sigma", "\u03C3"),
  ("sigmat", "\u03C2"),
  ("SIGMA", "\u03A3"),
  ("tau", "\u03C4"),
  ("upsilon", "\u03C5"),
  ("phi", "\u03C6"),
  ("PHI", "\u03A6"),
  ("chi", "\u03C7"),
  ("psi", "\u03C8"),
  ("PSI", "\u03A8"),
  ("omega", "\u03C9"),
  ("OMEGA", "\u03A9"),
  ("acute", "\u00B4"),
  ("grave", "`"),
  ("star", "*"),
  ("asterism", "\u2042"),
  ("cflex", "\u02C6"),
  ("srtil", "\u02DC"),
  ("invbre", " \u0311"),
  ("bacc", "\u02C8"),
  ("lacc", "\u02CC"),
  ("sdiv", "\u00B7"),
  ("tsup", "\u1D57"),
  ("esup", "\u1D49"),
  ("isub", "\u1D62")]

/-- `entity_to_unicode` of `src/exporter.rs`: table lookup, `U+FFFD` for
unknown names. -/
def entity_to_unicode (entity : Str) : Str :=
  match entity_table.find? (fun p => p.1.data == entity) with
  | some p => p.2.data
  | none => "\uFFFD".data

/-- `str::replace(pat, rep)`: replace the leftmost, non-overlapping
occurrences of `pat` by `rep`, with fuel; every step consumes at least one
character (all patterns used are nonempty), so fuel `s.length` suffices. -/
def replace_fuel (pat rep : Str) : Nat → Str → Str
  | 0, s => s
  | _, [] => []
  | f + 1, c :: cs =>
    if pat.isPrefixOf (c :: cs) && !pat.isEmpty then
      rep ++ replace_fuel pat rep f ((c :: cs).drop pat.length)
    else c :: replace_fuel pat rep f cs

def replace (pat rep s : Str) : Str := replace_fuel pat rep s.length s

/-- `process_symbols_in_text` of `src/exporter.rs`:
`text.replace("'", U+2019).replace("----", 3 x U+23AF).replace("--", mdash)`. -/
def process_symbols_in_text (text : Str) : Str :=
  replace "--".data (entity_to_unicode "mdash".data)
    (replace "----".data "\u23AF\u23AF\u23AF".data
      (replace "'".data "\u2019".data text))

/-- The `PlainText` arm of `DisplayHTML for EntryItem::fmt_html` in
`src/bin/tohtml.rs`: inside `pre` only `&` is escaped; otherwise the
typographic substitutions run first and then `&` is escaped. -/
def fmt_html_plain_text (ctx_tag : Option Str) (text : Str) : Str :=
  match ctx_tag with
  | some t =>
    if t = "pre".data then replace "&".data "&amp;".data text
    else replace "&".data "&amp;".data (process_symbols_in_text text)
  | none => replace "&".data "&amp;".data (process_symbols_in_text text)

/-- `write_tag_open` of `src/exporter.rs`. -/
def write_tag_open (name : Str) (source : Option Str) : Str :=
  match source with
  | some src =>
    if name = "p".data ∨ name = "extra".data then
      "<".data ++ name ++ " source=\"".data ++ src ++ "\">".data
    else
      "<".data ++ name ++ " [ERROR->]source=\"".data ++ src ++ "\">".data
  | none => "<".data ++ name ++ ">".data

/-- The `UnpairedTagOpen` arm of `DisplayCIDE for EntryItem::fmt_cide` in
`src/exporter.rs` (the newer emitter, where residual opens carry an optional
source attribute). -/
def cide_unpaired_open (name : Str) (source : Option Str) : Str :=
  (if dangle_allowed.contains name then [] else "[ERROR->]".data) ++ write_tag_open name source

/-- The `UnpairedTagClose` arm of `DisplayCIDE for EntryItem::fmt_cide` in
`src/exporter.rs`. -/
def cide_unpaired_close (name : Str) : Str :=
  if dangle_allowed.contains name then "</".data ++ name ++ ">".data
  else "[ERROR->]</".data ++ name ++ ">".data

/-- The first character of `s` (if any) fails `p`: a maximal `takeWhile p`
run ending right before `s` stays maximal when `s` is appended. -/
def head_fails (p : Char → Bool) : Str → Bool
  | [] => true
  | c :: _ => !(p c)

/-- The character after an emitted `Plain` run (if any) is `<` or `>`, so
the lexer's maximal munch reproduces the run exactly. -/
def plain_stop : Str → Bool
  | [] => true
  | c :: _ => c = '<' || c = '>'

/-! ## Lemmas about the combinators -/

theorem isPrefixOf_append_self (l r : Str) : l.isPrefixOf (l ++ r) = true := by
  induction l with
  | nil => simp [List.isPrefixOf]
  | cons c l ih => simp [List.isPrefixOf, ih]

theorem tag_self (lit rest : Str) : tag lit (lit ++ rest) = some rest := by
  simp [tag, isPrefixOf_append_self, List.drop_left]

theorem takeWhile_append_all {p : Char → Bool} (t rest : Str)
    (h : ∀ c ∈ t, p c = true) (h2 : head_fails p rest = true) :
    (t ++ rest).takeWhile p = t ∧ (t ++ rest).dropWhile p = rest := by
  induction t with
  | nil =>
    simp only [List.nil_append]
    cases rest with
    | nil => simp
    | cons c r =>
      simp only [head_fails, Bool.not_eq_true'] at h2
      simp [List.takeWhile_cons, List.dropWhile_cons, h2]
  | cons c t ih =>
    have hc := h c (by simp)
    have iht := ih (fun d hd => h d (by simp [hd]))
    simp [List.takeWhile_cons, List.dropWhile_cons, hc, iht.1, iht.2]

theorem head_fails_of_plain_stop {rest : Str} (h : plain_stop rest = true) :
    head_fails is_not_lt_gt rest = true := by
  cases rest with
  | nil => rfl
  | cons c r =>
    simp only [plain_stop, Bool.or_eq_true, decide_eq_true_eq] at h
    rcases h with h | h <;> simp [head_fails, is_not_lt_gt, h]

theorem alnum_name_spec {n : Str} (h : alnum_name n = true) :
    n ≠ [] ∧ ∀ c ∈ n, c.isAlphanum = true := by
  simp only [alnum_name, Bool.and_eq_true] at h
  refine ⟨fun hn => ?_, fun c hc => List.all_eq_true.mp h.2 c hc⟩
  subst hn; simp at h

theorem alnum_char_ne {c : Char} (hc : c.isAlphanum = true) :
    c ≠ '<' ∧ c ≠ '>' ∧ c ≠ '/' ∧ c ≠ '?' ∧ c ≠ '-' ∧ c ≠ '"' ∧ c ≠ ' ' := by
  refine ⟨?_, ?_, ?_, ?_, ?_, ?_, ?_⟩ <;> (intro h; subst h; exact absurd hc (by decide))

theorem alphanumeric1_append (n rest : Str) (hne : n ≠ [])
    (hall : ∀ c ∈ n, c.isAlphanum = true) (hstop : head_fails Char.isAlphanum rest = true) :
    alphanumeric1 (n ++ rest) = some (n, rest) := by
  have h := takeWhile_append_all n rest hall hstop
  simp [alphanumeric1, h.1, h.2, hne]

theorem plain_append (t rest : Str) (hne : t ≠ []) (hall : ∀ c ∈ t, is_not_lt_gt c = true)
    (hstop : plain_stop rest = true) :
    plain (t ++ rest) = some (.Plain t, rest) := by
  have h := takeWhile_append_all t rest hall (head_fails_of_plain_stop hstop)
  simp [plain, h.1, h.2, hne]

theorem splitUntil_spec {pat s a b : Str} (h : splitUntil pat s = some (a, b)) :
    s = a ++ b := by
  induction s generalizing a with
  | nil =>
    simp only [splitUntil] at h
    split at h
    · simp at h; simp [h.1, h.2]
    · cases h
  | cons c cs ih =>
    simp only [splitUntil] at h
    split at h
    · simp at h; simp [← h.1, ← h.2]
    · revert h
      match hrec : splitUntil pat cs with
      | some (a', b') =>
        intro h
        simp at h
        obtain ⟨rfl, rfl⟩ := h
        simp [ih hrec]
      | none => intro h; cases h

theorem arrow_data : "-->".data = ['-', '-', '>'] := rfl

theorem splitUntil_cons (pat : Str) (c : Char) (cs : Str) :
    splitUntil pat (c :: cs) =
      if pat.isPrefixOf (c :: cs) then some ([], c :: cs)
      else match splitUntil pat cs with
        | some (a, b) => some (c :: a, b)
        | none => none := rfl

/-- The first occurrence of `"-->"` in `t ++ "-->" ++ rest` is the appended
one when `t` contains none: the boundary cannot complete an occurrence
because `"-->"` does not overlap itself across it. -/
theorem splitUntil_arrow (t rest : Str) (h : hasInfix "-->".data t = false) :
    splitUntil "-->".data (t ++ "-->".data ++ rest) = some (t, "-->".data ++ rest) := by
  induction t with
  | nil => simp [splitUntil_cons, arrow_data, List.isPrefixOf]
  | cons c cs ih =>
    simp only [hasInfix, Bool.or_eq_false_iff] at h
    have hpre : ("-->".data).isPrefixOf ((c :: cs) ++ "-->".data ++ rest) = false := by
      cases cs with
      | nil => simp [List.isPrefixOf, arrow_data]
      | cons c2 cs2 =>
        cases cs2 with
        | nil => simp [List.isPrefixOf, arrow_data]
        | cons c3 cs3 =>
          have h1 := h.1
          simp only [arrow_data, List.isPrefixOf, List.cons_append,
            Bool.and_eq_false_iff] at h1 ⊢
          simpa using h1
    have ih2 := ih h.2
    simp only [arrow_data] at hpre ih2 ⊢
    simp only [List.cons_append, List.append_assoc, List.nil_append] at hpre ih2 ⊢
    rw [splitUntil_cons]
    simp only [hpre, Bool.false_eq_true, if_false]
    rw [ih2]

/-! ## Consumption: every successful `block_item` eats at least one character -/

theorem isPrefixOf_length_le {l s : Str} (h : l.isPrefixOf s = true) : l.length ≤ s.length := by
  induction l generalizing s with
  | nil => simp
  | cons c l ih =>
    cases s with
    | nil => simp [List.isPrefixOf] at h
    | cons d s =>
      simp only [List.isPrefixOf, Bool.and_eq_true] at h
      simpa using ih h.2

theorem tag_length {lit s r : Str} (h : tag lit s = some r) :
    r.length + lit.length = s.length := by
  simp only [tag] at h
  split at h
  · rename_i hp
    simp only [Option.some.injEq] at h
    subst h
    have := isPrefixOf_length_le hp
    simp [List.length_drop]
    omega
  · cases h

theorem dropWhile_length_lt {p : Char → Bool} {s : Str} (h : s.takeWhile p ≠ []) :
    (s.dropWhile p).length < s.length := by
  have he := congrArg List.length (@List.takeWhile_append_dropWhile _ p s)
  simp only [List.length_append] at he
  have : 0 < (s.takeWhile p).length := List.length_pos.mpr h
  omega

theorem length_dropWhile_le (p : Char → Bool) (l : Str) :
    (l.dropWhile p).length ≤ l.length := by
  have he := congrArg List.length (@List.takeWhile_append_dropWhile _ p l)
  simp only [List.length_append] at he
  omega

theorem plain_consumes {s : Str} {it : BlockItem} {rest : Str}
    (h : plain s = some (it, rest)) : rest.length < s.length := by
  simp only [plain] at h
  split at h
  · cases h
  · rename_i hne
    simp only [Option.some.injEq, Prod.mk.injEq] at h
    rw [← h.2]
    exact dropWhile_length_lt (by simpa using hne)

theorem alphanumeric1_consumes {s n rest : Str}
    (h : alphanumeric1 s = some (n, rest)) : rest.length < s.length := by
  simp only [alphanumeric1] at h
  split at h
  · cases h
  · rename_i hne
    simp only [Option.some.injEq, Prod.mk.injEq] at h
    rw [← h.2]
    exact dropWhile_length_lt (by simpa using hne)

theorem open_tag_consumes {s : Str} {it : BlockItem} {rest : Str}
    (h : open_tag s = some (it, rest)) : rest.length < s.length := by
  unfold open_tag at h
  split at h
  · cases h
  · rename_i s1 h1
    split at h
    · cases h
    · rename_i n s2 h2
      split at h
      · cases h
      · rename_i s3 h3
        cases h
        have l1 := tag_length h1
        have l2 := alphanumeric1_consumes h2
        have l3 := tag_length h3
        have e1 : ("<".data).length = 1 := rfl
        have e2 : (">".data).length = 1 := rfl
        omega

theorem close_tag_consumes {s : Str} {it : BlockItem} {rest : Str}
    (h : close_tag s = some (it, rest)) : rest.length < s.length := by
  unfold close_tag at h
  split at h
  · cases h
  · rename_i s1 h1
    split at h
    · cases h
    · rename_i n s2 h2
      split at h
      · cases h
      · rename_i s3 h3
        cases h
        have l1 := tag_length h1
        have l2 := alphanumeric1_consumes h2
        have l3 := tag_length h3
        have e1 : ("</".data).length = 2 := rfl
        have e2 : (">".data).length = 1 := rfl
        omega

theorem entity_consumes {s : Str} {it : BlockItem} {rest : Str}
    (h : entity s = some (it, rest)) : rest.length < s.length := by
  unfold entity at h
  split at h
  · rename_i s1 h1
    cases h
    have l1 := tag_length h1
    have e1 : ("<?/".data).length = 3 := rfl
    omega
  · rename_i h0
    split at h
    · rename_i s1 h1
      have l1 := tag_length h1
      have e1 : ("<br/".data).length = 4 := rfl
      split at h
      · cases h
        simp only [List.length_cons] at l1
        omega
      · cases h
        omega
    · rename_i h0'
      split at h
      · cases h
      · rename_i s1 h1
        split at h
        · cases h
        · rename_i n s2 h2
          split at h
          · cases h
          · rename_i s3 h3
            cases h
            have l1 := tag_length h1
            have l2 := alphanumeric1_consumes h2
            have l3 := tag_length h3
            have e1 : ("<".data).length = 1 := rfl
            have e2 : ("/".data).length = 1 := rfl
            omega

theorem comment_consumes {s : Str} {it : BlockItem} {rest : Str}
    (h : comment s = some (it, rest)) : rest.length < s.length := by
  unfold comment at h
  split at h
  · cases h
  · rename_i s1 h1
    split at h
    · cases h
    · rename_i a b h2
      split at h
      · cases h
      · rename_i s3 h3
        cases h
        have l1 := tag_length h1
        have l3 := tag_length h3
        have hb := congrArg List.length (splitUntil_spec h2)
        simp only [List.length_append] at hb
        have e1 : ("<--".data).length = 3 := rfl
        have e2 : ("-->".data).length = 3 := rfl
        omega

theorem ext_link_consumes {s : Str} {it : BlockItem} {rest : Str}
    (h : ext_link s = some (it, rest)) : rest.length < s.length := by
  unfold ext_link at h
  split at h
  · cases h
  · rename_i s1 h1
    simp only at h
    split at h
    · cases h
    · split at h
      · cases h
      · rename_i s2 h2
        split at h
        · cases h
        · split at h
          · cases h
          · rename_i s3 h3
            cases h
            have l1 := tag_length h1
            have l2 := tag_length h2
            have l3 := tag_length h3
            have d1 : (s1.dropWhile not_quote).length ≤ s1.length :=
              length_dropWhile_le not_quote s1
            have d2 : (s2.dropWhile is_not_lt_gt).length ≤ s2.length :=
              length_dropWhile_le is_not_lt_gt s2
            simp only [List.length_cons, List.length_nil] at l1 l2 l3
            omega

theorem block_item_consumes {s : Str} {it : BlockItem} {rest : Str}
    (h : block_item s = some (it, rest)) : rest.length < s.length := by
  unfold block_item at h
  cases h1 : plain s with
  | some r => rw [h1] at h; cases h; exact plain_consumes h1
  | none =>
    rw [h1] at h
    cases h2 : open_tag s with
    | some r => rw [h2] at h; cases h; exact open_tag_consumes h2
    | none =>
      rw [h2] at h
      cases h3 : close_tag s with
      | some r => rw [h3] at h; cases h; exact close_tag_consumes h3
      | none =>
        rw [h3] at h
        cases h4 : entity s with
        | some r => rw [h4] at h; cases h; exact entity_consumes h4
        | none =>
          rw [h4] at h
          cases h5 : comment s with
          | some r => rw [h5] at h; cases h; exact comment_consumes h5
          | none =>
            rw [h5] at h
            exact ext_link_consumes h

theorem parse_items_fuel_stable : ∀ f1 f2 s, s.length < f1 → s.length < f2 →
    parse_items_fuel f1 s = parse_items_fuel f2 s := by
  intro f1
  induction f1 with
  | zero => intro f2 s h; omega
  | succ f ih =>
    intro f2 s h1 h2
    cases f2 with
    | zero => omega
    | succ g =>
      simp only [parse_items_fuel]
      cases hb : block_item s with
      | none => rfl
      | some p =>
        obtain ⟨it, rest⟩ := p
        have hc := block_item_consumes hb
        dsimp only
        rw [ih g rest (by omega) (by omega)]

theorem parse_items_some {s : Str} {it : BlockItem} {rest : Str}
    (h : block_item s = some (it, rest)) :
    parse_items s = (it :: (parse_items rest).1, (parse_items rest).2) := by
  have hc := block_item_consumes h
  unfold parse_items
  conv_lhs => rw [show s.length + 1 = s.length + 1 from rfl]
  rw [show parse_items_fuel (s.length + 1) s =
      (match block_item s with
       | none => ([], s)
       | some (it, rest) =>
         let r := parse_items_fuel s.length rest
         (it :: r.1, r.2)) from rfl]
  rw [h]
  simp only []
  rw [parse_items_fuel_stable s.length (rest.length + 1) rest (by omega) (by omega)]

/-! ## Token lemmas: `block_item` on each emitted shape -/

theorem beq_char_false {a b : Char} (h : a ≠ b) : (a == b) = false := by
  simp [h]

theorem plain_head_fail {c : Char} (hc : is_not_lt_gt c = false) (s : Str) :
    plain (c :: s) = none := by
  simp [plain, List.takeWhile_cons, hc]

theorem alphanumeric1_head_fail {c : Char} (hc : c.isAlphanum = false) (s : Str) :
    alphanumeric1 (c :: s) = none := by
  simp [alphanumeric1, List.takeWhile_cons, hc]

theorem tag_fail {lit s : Str} (h : lit.isPrefixOf s = false) : tag lit s = none := by
  simp [tag, h]

theorem head_fails_cons {p : Char → Bool} {c : Char} (hc : p c = false) (s : Str) :
    head_fails p (c :: s) = true := by
  simp [head_fails, hc]

theorem isPrefixOf_pos1_false {a : Char} {pa : Str} {b : Char} {s : Str}
    (h : (a == b) = false) : (a :: pa).isPrefixOf (b :: s) = false := by
  simp [List.isPrefixOf, h]

theorem isPrefixOf_pos2_false {a b : Char} {pa : Str} {c d : Char} {s : Str}
    (h : (b == d) = false) : (a :: b :: pa).isPrefixOf (c :: d :: s) = false := by
  simp [List.isPrefixOf, h]

theorem isPrefixOf_pos3_false {a b c : Char} {pa : Str} {x y z : Char} {s : Str}
    (h : (c == z) = false) : (a :: b :: c :: pa).isPrefixOf (x :: y :: z :: s) = false := by
  simp [List.isPrefixOf, h]

theorem isPrefixOf_pos4_false {a b c d : Char} {pa : Str} {x y z w : Char} {s : Str}
    (h : (d == w) = false) :
    (a :: b :: c :: d :: pa).isPrefixOf (x :: y :: z :: w :: s) = false := by
  simp [List.isPrefixOf, h]

theorem block_item_plain_tok (t rest : Str) (hne : t ≠ [])
    (hall : ∀ c ∈ t, is_not_lt_gt c = true) (hstop : plain_stop rest = true) :
    block_item (t ++ rest) = some (.Plain t, rest) := by
  unfold block_item
  rw [plain_append t rest hne hall hstop]

theorem block_item_open_tok (n rest : Str) (h : alnum_name n = true) :
    block_item ("<".data ++ (n ++ (">".data ++ rest))) = some (.UnpairedTagOpen n, rest) := by
  obtain ⟨hne, hall⟩ := alnum_name_spec h
  have hplain : plain ("<".data ++ (n ++ (">".data ++ rest))) = none :=
    plain_head_fail (by decide) _
  have hopen : open_tag ("<".data ++ (n ++ (">".data ++ rest))) =
      some (.UnpairedTagOpen n, rest) := by
    unfold open_tag
    rw [tag_self]
    dsimp only
    rw [alphanumeric1_append n (">".data ++ rest) hne hall (head_fails_cons (by decide) _)]
    dsimp only
    rw [tag_self]
  unfold block_item
  rw [hplain, hopen]

theorem block_item_close_tok (n rest : Str) (h : alnum_name n = true) :
    block_item ("</".data ++ (n ++ (">".data ++ rest))) =
      some (.UnpairedTagClose n, rest) := by
  obtain ⟨hne, hall⟩ := alnum_name_spec h
  have hplain : plain ("</".data ++ (n ++ (">".data ++ rest))) = none :=
    plain_head_fail (by decide) _
  have hopen : open_tag ("</".data ++ (n ++ (">".data ++ rest))) = none := by
    unfold open_tag
    rw [show tag "<".data ("</".data ++ (n ++ (">".data ++ rest)))
        = some ('/' :: (n ++ (">".data ++ rest)))
      from tag_self "<".data ('/' :: (n ++ (">".data ++ rest)))]
    dsimp only
    rw [alphanumeric1_head_fail (by decide) _]
  have hclose : close_tag ("</".data ++ (n ++ (">".data ++ rest))) =
      some (.UnpairedTagClose n, rest) := by
    unfold close_tag
    rw [tag_self]
    dsimp only
    rw [alphanumeric1_append n (">".data ++ rest) hne hall (head_fails_cons (by decide) _)]
    dsimp only
    rw [tag_self]
  unfold block_item
  rw [hplain, hopen, hclose]

theorem block_item_entity_tok (n rest : Str) (h : alnum_name n = true)
    (hbr : n ≠ "br".data) :
    block_item ("<".data ++ (n ++ ("/".data ++ rest))) = some (.Entity n, rest) := by
  obtain ⟨hne, hall⟩ := alnum_name_spec h
  obtain ⟨c, n2, rfl⟩ : ∃ c n2, n = c :: n2 := by
    cases n with
    | nil => exact absurd rfl hne
    | cons c n2 => exact ⟨c, n2, rfl⟩
  have hc := hall c (by simp)
  have hcp := alnum_char_ne hc
  have hplain : plain ("<".data ++ (c :: n2 ++ ("/".data ++ rest))) = none :=
    plain_head_fail (by decide) _
  have hopen : open_tag ("<".data ++ (c :: n2 ++ ("/".data ++ rest))) = none := by
    unfold open_tag
    rw [tag_self]
    dsimp only
    rw [alphanumeric1_append (c :: n2) ("/".data ++ rest) hne hall
      (head_fails_cons (by decide) _)]
    dsimp only
    rw [show tag ">".data ("/".data ++ rest) = none
      from tag_fail (isPrefixOf_pos1_false (by decide))]
  have hclose : close_tag ("<".data ++ (c :: n2 ++ ("/".data ++ rest))) = none := by
    unfold close_tag
    rw [show tag "</".data ("<".data ++ (c :: n2 ++ ("/".data ++ rest))) = none
      from tag_fail (isPrefixOf_pos2_false (beq_char_false (fun hh => hcp.2.2.1 hh.symm)))]
  have hunk : tag "<?/".data ("<".data ++ (c :: n2 ++ ("/".data ++ rest))) = none :=
    tag_fail (isPrefixOf_pos2_false (beq_char_false (fun hh => hcp.2.2.2.1 hh.symm)))
  have hbrt : tag "<br/".data ("<".data ++ (c :: n2 ++ ("/".data ++ rest))) = none := by
    cases n2 with
    | nil =>
      exact tag_fail (isPrefixOf_pos3_false (by decide))
    | cons c2 n3 =>
      cases n3 with
      | nil =>
        have hne2 : ¬(c = 'b' ∧ c2 = 'r') := fun hcc => hbr (by rw [hcc.1, hcc.2])
        refine tag_fail ?_
        show (['<', 'b', 'r', '/'] : Str).isPrefixOf ('<' :: c :: c2 :: '/' :: rest) = false
        by_cases h1 : c = 'b'
        · by_cases h2 : c2 = 'r'
          · exact absurd ⟨h1, h2⟩ hne2
          · exact isPrefixOf_pos3_false (beq_char_false (fun hh => h2 hh.symm))
        · exact isPrefixOf_pos2_false (beq_char_false (fun hh => h1 hh.symm))
      | cons c3 n4 =>
        have hc3 := hall c3 (by simp)
        exact tag_fail (isPrefixOf_pos4_false
          (beq_char_false (fun hh => (alnum_char_ne hc3).2.2.1 hh.symm)))
  have hent : entity ("<".data ++ (c :: n2 ++ ("/".data ++ rest))) =
      some (.Entity (c :: n2), rest) := by
    unfold entity
    rw [hunk, hbrt, tag_self]
    dsimp only
    rw [alphanumeric1_append (c :: n2) ("/".data ++ rest) hne hall
      (head_fails_cons (by decide) _)]
    dsimp only
    rw [tag_self]
  unfold block_item
  rw [hplain, hopen, hclose, hent]

theorem block_item_br_tok (rest : Str) :
    block_item ("<br/\n".data ++ rest) = some (.EntityBr, rest) := by
  have hplain : plain ("<br/\n".data ++ rest) = none := plain_head_fail (by decide) _
  have hopen : open_tag ("<br/\n".data ++ rest) = none := by
    unfold open_tag
    rw [show tag "<".data ("<br/\n".data ++ rest) = some ('b' :: 'r' :: '/' :: '\n' :: rest)
      from tag_self "<".data ('b' :: 'r' :: '/' :: '\n' :: rest)]
    dsimp only
    rw [show alphanumeric1 ('b' :: 'r' :: '/' :: '\n' :: rest)
        = some (['b', 'r'], '/' :: '\n' :: rest)
      from alphanumeric1_append ['b', 'r'] ('/' :: '\n' :: rest) (by decide) (by decide)
        (head_fails_cons (by decide) _)]
    dsimp only
    rw [show tag ">".data ('/' :: '\n' :: rest) = none
      from tag_fail (isPrefixOf_pos1_false (by decide))]
  have hclose : close_tag ("<br/\n".data ++ rest) = none := by
    unfold close_tag
    rw [show tag "</".data ("<br/\n".data ++ rest) = none
      from tag_fail (isPrefixOf_pos2_false (by decide))]
  have hent : entity ("<br/\n".data ++ rest) = some (.EntityBr, rest) := by
    unfold entity
    rw [show tag "<?/".data ("<br/\n".data ++ rest) = none
      from tag_fail (isPrefixOf_pos2_false (by decide))]
    rw [show tag "<br/".data ("<br/\n".data ++ rest) = some ('\n' :: rest)
      from tag_self "<br/".data ('\n' :: rest)]
    dsimp only
    split
    · rename_i s2 heq
      injection heq with h1 h2
      rw [h2]
    · rename_i hne2
      exact absurd rfl (hne2 rest)
  unfold block_item
  rw [hplain, hopen, hclose, hent]

theorem block_item_unk_tok (rest : Str) :
    block_item ("<?/".data ++ rest) = some (.EntityUnk, rest) := by
  have hplain : plain ("<?/".data ++ rest) = none := plain_head_fail (by decide) _
  have hopen : open_tag ("<?/".data ++ rest) = none := by
    unfold open_tag
    rw [show tag "<".data ("<?/".data ++ rest) = some ('?' :: '/' :: rest)
      from tag_self "<".data ('?' :: '/' :: rest)]
    dsimp only
    rw [alphanumeric1_head_fail (by decide) _]
  have hclose : close_tag ("<?/".data ++ rest) = none := by
    unfold close_tag
    rw [show tag "</".data ("<?/".data ++ rest) = none
      from tag_fail (isPrefixOf_pos2_false (by decide))]
  have hent : entity ("<?/".data ++ rest) = some (.EntityUnk, rest) := by
    unfold entity
    rw [tag_self]
  unfold block_item
  rw [hplain, hopen, hclose, hent]

theorem block_item_comment_tok (t rest : Str) (h : hasInfix "-->".data t = false) :
    block_item ("<--".data ++ (t ++ ("-->".data ++ rest))) = some (.Comment t, rest) := by
  have hsp := splitUntil_arrow t rest h
  rw [List.append_assoc] at hsp
  have hplain : plain ("<--".data ++ (t ++ ("-->".data ++ rest))) = none :=
    plain_head_fail (by decide) _
  have hopen : open_tag ("<--".data ++ (t ++ ("-->".data ++ rest))) = none := by
    unfold open_tag
    rw [show tag "<".data ("<--".data ++ (t ++ ("-->".data ++ rest)))
        = some ('-' :: '-' :: (t ++ ("-->".data ++ rest)))
      from tag_self "<".data ('-' :: '-' :: (t ++ ("-->".data ++ rest)))]
    dsimp only
    rw [alphanumeric1_head_fail (by decide) _]
  have hclose : close_tag ("<--".data ++ (t ++ ("-->".data ++ rest))) = none := by
    unfold close_tag
    rw [show tag "</".data ("<--".data ++ (t ++ ("-->".data ++ rest))) = none
      from tag_fail (isPrefixOf_pos2_false (by decide))]
  have hent : entity ("<--".data ++ (t ++ ("-->".data ++ rest))) = none := by
    unfold entity
    rw [show tag "<?/".data ("<--".data ++ (t ++ ("-->".data ++ rest))) = none
      from tag_fail (isPrefixOf_pos2_false (by decide))]
    rw [show tag "<br/".data ("<--".data ++ (t ++ ("-->".data ++ rest))) = none
      from tag_fail (isPrefixOf_pos2_false (by decide))]
    rw [show tag "<".data ("<--".data ++ (t ++ ("-->".data ++ rest)))
        = some ('-' :: '-' :: (t ++ ("-->".data ++ rest)))
      from tag_self "<".data ('-' :: '-' :: (t ++ ("-->".data ++ rest)))]
    dsimp only
    rw [alphanumeric1_head_fail (by decide) _]
  have hcom : comment ("<--".data ++ (t ++ ("-->".data ++ rest))) =
      some (.Comment t, rest) := by
    unfold comment
    rw [tag_self]
    dsimp only
    rw [hsp]
    dsimp only
    rw [tag_self]
  unfold block_item
  rw [hplain, hopen, hclose, hent, hcom]

theorem block_item_link_tok (u t rest : Str)
    (hu : u ≠ []) (hallu : ∀ c ∈ u, not_quote c = true)
    (ht : t ≠ []) (hallt : ∀ c ∈ t, is_not_lt_gt c = true) :
    block_item ("<a href=\"".data ++ (u ++ ("\">".data ++ (t ++ ("</a>".data ++ rest))))) =
      some (.ExternalLink u t, rest) := by
  have hue : u.isEmpty = false := by
    cases u with
    | nil => exact absurd rfl hu
    | cons _ _ => rfl
  have hte : t.isEmpty = false := by
    cases t with
    | nil => exact absurd rfl ht
    | cons _ _ => rfl
  have hurl := @takeWhile_append_all not_quote u
    ("\">".data ++ (t ++ ("</a>".data ++ rest))) hallu
    (head_fails_cons (by decide) ('>' :: (t ++ ("</a>".data ++ rest))))
  have htxt := @takeWhile_append_all is_not_lt_gt t ("</a>".data ++ rest) hallt
    (head_fails_cons (by decide) ('/' :: 'a' :: '>' :: rest))
  have hplain : plain ("<a href=\"".data ++ (u ++ ("\">".data ++ (t ++ ("</a>".data ++ rest)))))
      = none := plain_head_fail (by decide) _
  have ha1 : alphanumeric1 ('a' :: ' ' :: 'h' :: 'r' :: 'e' :: 'f' :: '=' :: '"' ::
      (u ++ ("\">".data ++ (t ++ ("</a>".data ++ rest)))))
      = some (['a'], ' ' :: 'h' :: 'r' :: 'e' :: 'f' :: '=' :: '"' ::
        (u ++ ("\">".data ++ (t ++ ("</a>".data ++ rest))))) := by
    rw [show ('a' :: ' ' :: 'h' :: 'r' :: 'e' :: 'f' :: '=' :: '"' ::
        (u ++ ("\">".data ++ (t ++ ("</a>".data ++ rest)))) : Str)
        = ['a'] ++ (' ' :: 'h' :: 'r' :: 'e' :: 'f' :: '=' :: '"' ::
        (u ++ ("\">".data ++ (t ++ ("</a>".data ++ rest))))) from rfl]
    exact alphanumeric1_append ['a'] _ (by decide) (by decide) (head_fails_cons (by decide) _)
  have hopen : open_tag ("<a href=\"".data ++ (u ++ ("\">".data ++ (t ++ ("</a>".data ++ rest)))))
      = none := by
    unfold open_tag
    rw [show tag "<".data
        ("<a href=\"".data ++ (u ++ ("\">".data ++ (t ++ ("</a>".data ++ rest)))))
        = some ('a' :: ' ' :: 'h' :: 'r' :: 'e' :: 'f' :: '=' :: '"' ::
          (u ++ ("\">".data ++ (t ++ ("</a>".data ++ rest)))))
      from tag_self "<".data _]
    dsimp only
    rw [ha1]
    dsimp only
    rw [show tag ">".data (' ' :: 'h' :: 'r' :: 'e' :: 'f' :: '=' :: '"' ::
        (u ++ ("\">".data ++ (t ++ ("</a>".data ++ rest))))) = none
      from tag_fail (isPrefixOf_pos1_false (by decide))]
  have hclose : close_tag
      ("<a href=\"".data ++ (u ++ ("\">".data ++ (t ++ ("</a>".data ++ rest))))) = none := by
    unfold close_tag
    rw [show tag "</".data
        ("<a href=\"".data ++ (u ++ ("\">".data ++ (t ++ ("</a>".data ++ rest))))) = none
      from tag_fail (isPrefixOf_pos2_false (by decide))]
  have hent : entity ("<a href=\"".data ++ (u ++ ("\">".data ++ (t ++ ("</a>".data ++ rest)))))
      = none := by
    unfold entity
    rw [show tag "<?/".data
        ("<a href=\"".data ++ (u ++ ("\">".data ++ (t ++ ("</a>".data ++ rest))))) = none
      from tag_fail (isPrefixOf_pos2_false (by decide))]
    rw [show tag "<br/".data
        ("<a href=\"".data ++ (u ++ ("\">".data ++ (t ++ ("</a>".data ++ rest))))) = none
      from tag_fail (isPrefixOf_pos2_false (by decide))]
    rw [show tag "<".data
        ("<a href=\"".data ++ (u ++ ("\">".data ++ (t ++ ("</a>".data ++ rest)))))
        = some ('a' :: ' ' :: 'h' :: 'r' :: 'e' :: 'f' :: '=' :: '"' ::
          (u ++ ("\">".data ++ (t ++ ("</a>".data ++ rest)))))
      from tag_self "<".data _]
    dsimp only
    rw [ha1]
    dsimp only
    rw [show tag "/".data (' ' :: 'h' :: 'r' :: 'e' :: 'f' :: '=' :: '"' ::
        (u ++ ("\">".data ++ (t ++ ("</a>".data ++ rest))))) = none
      from tag_fail (isPrefixOf_pos1_false (by decide))]
  have hcomm : comment ("<a href=\"".data ++ (u ++ ("\">".data ++ (t ++ ("</a>".data ++ rest)))))
      = none := by
    unfold comment
    rw [show tag "<--".data
        ("<a href=\"".data ++ (u ++ ("\">".data ++ (t ++ ("</a>".data ++ rest))))) = none
      from tag_fail (isPrefixOf_pos2_false (by decide))]
  have hlink : ext_link ("<a href=\"".data ++ (u ++ ("\">".data ++ (t ++ ("</a>".data ++ rest)))))
      = some (.ExternalLink u t, rest) := by
    unfold ext_link
    rw [tag_self]
    dsimp only
    rw [hurl.1, hurl.2]
    simp only [hue, Bool.false_eq_true, if_false]
    rw [tag_self]
    dsimp only
    rw [htxt.1, htxt.2]
    simp only [hte, Bool.false_eq_true, if_false]
    rw [tag_self]
  unfold block_item
  rw [hplain, hopen, hclose, hent, hcomm, hlink]

theorem parse_items_none {s : Str} (h : block_item s = none) : parse_items s = ([], s) := by
  unfold parse_items
  rw [show parse_items_fuel (s.length + 1) s =
      (match block_item s with
       | none => ([], s)
       | some (it, rest) =>
         let r := parse_items_fuel s.length rest
         (it :: r.1, r.2)) from rfl]
  rw [h]

/-! ## Parsing an emitted well-formed list reproduces its flat token sequence -/

theorem plain_stop_lt (s : Str) : plain_stop ('<' :: s) = true := by
  simp [plain_stop]

theorem plain_stop_display {it : BlockItem} (hwf : wfItem it = true)
    (hnp : is_plain_item it = false) (r : Str) :
    plain_stop (displayItem it ++ r) = true := by
  cases it with
  | Comment t => exact plain_stop_lt _
  | Entity n => exact plain_stop_lt _
  | EntityBr => exact plain_stop_lt _
  | EntityUnk => exact plain_stop_lt _
  | ExternalLink u t => exact plain_stop_lt _
  | Tagged n items => exact plain_stop_lt _
  | Plain t => simp [is_plain_item] at hnp
  | Source t => simp [wfItem] at hwf
  | UnpairedTagOpen n => simp [wfItem] at hwf
  | UnpairedTagClose n => simp [wfItem] at hwf

theorem wfList_cons {it : BlockItem} {l : List BlockItem} (h : wfList (it :: l) = true) :
    wfItem it = true ∧ (is_plain_item it = true → head_is_plain l = false) ∧
      wfList l = true := by
  simp only [wfList] at h
  simp at h
  refine ⟨h.1.1, fun hp => ?_, h.2⟩
  rcases h.1.2 with h2 | h2
  · rw [hp] at h2; cases h2
  · exact h2

theorem head_is_plain_false {it2 : BlockItem} {l2 : List BlockItem}
    (h : head_is_plain (it2 :: l2) = false) : is_plain_item it2 = false := by
  cases it2 <;> simp [head_is_plain, is_plain_item] at h ⊢

theorem wfItem_plain {t : Str} (h : wfItem (.Plain t) = true) :
    t ≠ [] ∧ ∀ c ∈ t, is_not_lt_gt c = true := by
  simp only [wfItem] at h
  simp at h
  exact h

theorem wfItem_comment {t : Str} (h : wfItem (.Comment t) = true) :
    hasInfix "-->".data t = false := by
  simp only [wfItem] at h
  simp at h
  exact h

theorem wfItem_entity {n : Str} (h : wfItem (.Entity n) = true) :
    alnum_name n = true ∧ n ≠ "br".data := by
  simp only [wfItem] at h
  simp at h
  exact h

theorem wfItem_link {u t : Str} (h : wfItem (.ExternalLink u t) = true) :
    u ≠ [] ∧ (∀ c ∈ u, not_quote c = true) ∧ t ≠ [] ∧ ∀ c ∈ t, is_not_lt_gt c = true := by
  simp only [wfItem] at h
  simp at h
  refine ⟨h.1.1.1, fun c hc => ?_, h.1.2, h.2⟩
  simp [not_quote]
  exact h.1.1.2 c hc

theorem wfItem_tagged {nm : Str} {items : List BlockItem}
    (h : wfItem (.Tagged nm items) = true) :
    alnum_name nm = true ∧ nm ≠ "source".data ∧ is_col_b nm items = false ∧
      wfList items = true := by
  simp only [wfItem] at h
  simp at h
  exact ⟨h.1.1.1, h.1.1.2, h.1.2, h.2⟩

theorem sizeListB_cons (it : BlockItem) (l : List BlockItem) :
    sizeListB (it :: l) = sizeItem it + sizeListB l := rfl

theorem parse_display_main : ∀ bound : Nat, ∀ l rest, sizeListB l ≤ bound →
    wfList l = true → plain_stop rest = true →
    parse_items (displayList l ++ rest) =
      (flattenList l ++ (parse_items rest).1, (parse_items rest).2) := by
  intro bound
  induction bound with
  | zero =>
    intro l rest hs hw hr
    cases l with
    | nil => simp [displayList, flattenList]
    | cons it l =>
      have := sizeItem_pos it
      rw [sizeListB_cons] at hs
      omega
  | succ n ih =>
    intro l rest hs hw hr
    cases l with
    | nil => simp [displayList, flattenList]
    | cons it l =>
      obtain ⟨hwit, hpp, hwl⟩ := wfList_cons hw
      rw [sizeListB_cons] at hs
      have hposit := sizeItem_pos it
      have hs' : sizeListB l ≤ n := by omega
      rw [show displayList (it :: l) = displayItem it ++ displayList l from rfl,
        List.append_assoc]
      cases it with
      | Plain t =>
        obtain ⟨htne, htall⟩ := wfItem_plain hwit
        have hstop : plain_stop (displayList l ++ rest) = true := by
          cases l with
          | nil => simpa [displayList] using hr
          | cons it2 l2 =>
            obtain ⟨hw2, _, _⟩ := wfList_cons hwl
            have hnp2 : is_plain_item it2 = false :=
              head_is_plain_false (hpp (by simp [is_plain_item]))
            rw [show displayList (it2 :: l2) = displayItem it2 ++ displayList l2 from rfl,
              List.append_assoc]
            exact plain_stop_display hw2 hnp2 _
        rw [show displayItem (.Plain t) = t from rfl]
        rw [parse_items_some (block_item_plain_tok t (displayList l ++ rest) htne htall hstop)]
        rw [ih l rest hs' hwl hr]
        simp [flattenList, flattenItem]
      | Comment t =>
        have hcom := wfItem_comment hwit
        rw [show displayItem (.Comment t) = "<--".data ++ t ++ "-->".data from rfl]
        simp only [List.append_assoc]
        rw [parse_items_some (block_item_comment_tok t _ hcom)]
        rw [ih l rest hs' hwl hr]
        simp [flattenList, flattenItem]
      | Entity nm =>
        obtain ⟨halnum, hbr⟩ := wfItem_entity hwit
        rw [show displayItem (.Entity nm) = "<".data ++ nm ++ "/".data from rfl]
        simp only [List.append_assoc]
        rw [parse_items_some (block_item_entity_tok nm _ halnum hbr)]
        rw [ih l rest hs' hwl hr]
        simp [flattenList, flattenItem]
      | EntityBr =>
        rw [show displayItem .EntityBr = "<br/\n".data from rfl]
        rw [parse_items_some (block_item_br_tok (displayList l ++ rest))]
        rw [ih l rest hs' hwl hr]
        simp [flattenList, flattenItem]
      | EntityUnk =>
        rw [show displayItem .EntityUnk = "<?/".data from rfl]
        rw [parse_items_some (block_item_unk_tok (displayList l ++ rest))]
        rw [ih l rest hs' hwl hr]
        simp [flattenList, flattenItem]
      | ExternalLink u t =>
        obtain ⟨hune, huall, htne, htall⟩ := wfItem_link hwit
        rw [show displayItem (.ExternalLink u t)
            = "<a href=\"".data ++ u ++ "\">".data ++ t ++ "</a>".data from rfl]
        simp only [List.append_assoc]
        rw [parse_items_some (block_item_link_tok u t _ hune huall htne htall)]
        rw [ih l rest hs' hwl hr]
        simp [flattenList, flattenItem]
      | Tagged nm items =>
        obtain ⟨halnum, hnsrc, hncol, hwitems⟩ := wfItem_tagged hwit
        have hsit : sizeListB items ≤ n := by
          have : sizeItem (.Tagged nm items) = 1 + sizeListB items := rfl
          omega
        rw [show displayItem (.Tagged nm items)
            = "<".data ++ nm ++ ">".data ++ displayList items ++ "</".data ++ nm ++ ">".data
          from rfl]
        simp only [List.append_assoc]
        rw [parse_items_some (block_item_open_tok nm _ halnum)]
        rw [ih items ("</".data ++ (nm ++ (">".data ++ (displayList l ++ rest)))) hsit hwitems
          (plain_stop_lt _)]
        rw [parse_items_some (block_item_close_tok nm _ halnum)]
        rw [ih l rest hs' hwl hr]
        simp [flattenList, flattenItem, List.append_assoc]
      | Source t => simp [wfItem] at hwit
      | UnpairedTagOpen nm => simp [wfItem] at hwit
      | UnpairedTagClose nm => simp [wfItem] at hwit

/-! ## The tag pairer rebuilds a well-formed tree from its flat tokens -/

theorem lsr_all_false {α : Type} {l : List α} {p : α → Bool}
    (h : ∀ x ∈ l, p x = false) : linear_search_rev_by l p = none := by
  induction l with
  | nil => rfl
  | cons x xs ih =>
    unfold linear_search_rev_by
    rw [ih (fun y hy => h y (by simp [hy]))]
    rw [h x (by simp)]
    rfl

theorem lsr_append_none {α : Type} {l1 l2 : List α} {p : α → Bool}
    (h : linear_search_rev_by l2 p = none) :
    linear_search_rev_by (l1 ++ l2) p = linear_search_rev_by l1 p := by
  induction l1 with
  | nil => simpa using h
  | cons x xs ih =>
    show linear_search_rev_by (x :: (xs ++ l2)) p = _
    unfold linear_search_rev_by
    rw [ih]

theorem lsr_append_some {α : Type} {l1 l2 : List α} {p : α → Bool} {i : Nat}
    (h : linear_search_rev_by l2 p = some i) :
    linear_search_rev_by (l1 ++ l2) p = some (l1.length + i) := by
  induction l1 with
  | nil => simp only [List.nil_append, List.length_nil, Nat.zero_add]; exact h
  | cons x xs ih =>
    show linear_search_rev_by (x :: (xs ++ l2)) p = _
    unfold linear_search_rev_by
    rw [ih]
    simp only [List.length_cons]
    congr 1
    omega

theorem lsr_single_true {α : Type} {x : α} {p : α → Bool} (h : p x = true) :
    linear_search_rev_by [x] p = some 0 := by
  unfold linear_search_rev_by
  rw [show linear_search_rev_by ([] : List α) p = none from rfl, h]
  rfl

theorem wfList_mem {l : List BlockItem} (h : wfList l = true) :
    ∀ x ∈ l, wfItem x = true := by
  induction l with
  | nil => simp
  | cons it l ih =>
    obtain ⟨h1, _, h3⟩ := wfList_cons h
    intro x hx
    rcases List.mem_cons.mp hx with rfl | hx2
    · exact h1
    · exact ih h3 x hx2

theorem wfList_no_needle {l : List BlockItem} (h : wfList l = true) (nm : Str) :
    ∀ x ∈ l, (x == BlockItem.UnpairedTagOpen nm) = false := by
  intro x hx
  have hw := wfList_mem h x hx
  rw [beq_eq_false_iff_ne]
  intro heq
  rw [heq] at hw
  simp [wfItem] at hw

theorem pair_step_push (s : List BlockItem) (x : BlockItem)
    (h : ∀ nm, x ≠ .UnpairedTagClose nm) : pair_step s x = s ++ [x] := by
  cases x with
  | UnpairedTagClose nm => exact absurd rfl (h nm)
  | _ => rfl

theorem is_col_b_false_spec {nm : Str} {items : List BlockItem}
    (h : is_col_b nm items = false) :
    ¬(nm = "col".data ∧ ∃ bi, items = [BlockItem.Tagged "b".data bi]) := by
  rintro ⟨rfl, bi, rfl⟩
  simp [is_col_b] at h

theorem pair_step_close_generic (s inner : List BlockItem) (nm : Str)
    (hs : ∀ x ∈ inner, (x == BlockItem.UnpairedTagOpen nm) = false)
    (hnsrc : nm ≠ "source".data)
    (hncol : ¬(nm = "col".data ∧ ∃ bi, inner = [BlockItem.Tagged "b".data bi])) :
    pair_step (s ++ .UnpairedTagOpen nm :: inner) (.UnpairedTagClose nm) =
      s ++ [.Tagged nm inner] := by
  have hsearch : linear_search_rev (s ++ .UnpairedTagOpen nm :: inner) (.UnpairedTagOpen nm)
      = some s.length := by
    unfold linear_search_rev
    rw [show (s ++ .UnpairedTagOpen nm :: inner : List BlockItem)
        = (s ++ [BlockItem.UnpairedTagOpen nm]) ++ inner by simp]
    rw [lsr_append_none (lsr_all_false hs)]
    rw [@lsr_append_some _ s _ _ _ (lsr_single_true (by simp))]
    simp
  have htake : (s ++ .UnpairedTagOpen nm :: inner).take s.length = s := by
    have := List.take_left s (.UnpairedTagOpen nm :: inner)
    simpa using this
  have hdrop : (s ++ .UnpairedTagOpen nm :: inner).drop (s.length + 1) = inner := by
    rw [show (s ++ .UnpairedTagOpen nm :: inner : List BlockItem)
        = (s ++ [BlockItem.UnpairedTagOpen nm]) ++ inner by simp]
    rw [show s.length + 1 = (s ++ [BlockItem.UnpairedTagOpen nm]).length by simp]
    exact List.drop_left _ _
  unfold pair_step
  dsimp only
  rw [hsearch]
  dsimp only
  rw [if_neg hnsrc]
  by_cases hcc : s.length + 2 = (s ++ BlockItem.UnpairedTagOpen nm :: inner).length ∧
      nm = "col".data
  · obtain ⟨hlen, hcol⟩ := hcc
    have hinner1 : inner.length = 1 := by
      simp [List.length_append] at hlen
      omega
    obtain ⟨x, rfl⟩ : ∃ x, inner = [x] := by
      cases inner with
      | nil => simp at hinner1
      | cons a l =>
        cases l with
        | nil => exact ⟨a, rfl⟩
        | cons b m => simp at hinner1
    rw [if_pos ⟨hlen, hcol⟩]
    have hlast : (s ++ BlockItem.UnpairedTagOpen nm :: [x]).getLast? = some x := by
      rw [show (s ++ BlockItem.UnpairedTagOpen nm :: [x] : List BlockItem)
          = (s ++ [BlockItem.UnpairedTagOpen nm]) ++ [x] by simp]
      exact List.getLast?_concat _
    rw [hlast]
    cases x with
    | Tagged b_nm ci =>
      have hbnm : b_nm ≠ "b".data := by
        intro heq
        exact hncol ⟨hcol, ci, by rw [heq]⟩
      dsimp only
      rw [if_neg hbnm, htake, hdrop]
    | _ => dsimp only; rw [htake, hdrop]
  · rw [if_neg hcc]
    rw [htake, hdrop]

theorem pair_flatten_main : ∀ bound : Nat, ∀ l s k, sizeListB l ≤ bound →
    wfList l = true →
    List.foldl pair_step s (flattenList l ++ k) = List.foldl pair_step (s ++ l) k := by
  intro bound
  induction bound with
  | zero =>
    intro l s k hs hw
    cases l with
    | nil => simp [flattenList]
    | cons it l =>
      have := sizeItem_pos it
      rw [sizeListB_cons] at hs
      omega
  | succ n ih =>
    intro l s k hsz hw
    cases l with
    | nil => simp [flattenList]
    | cons it l =>
      obtain ⟨hwit, _, hwl⟩ := wfList_cons hw
      rw [sizeListB_cons] at hsz
      have hposit := sizeItem_pos it
      have hsz' : sizeListB l ≤ n := by omega
      rw [show flattenList (it :: l) = flattenItem it ++ flattenList l from rfl,
        List.append_assoc]
      cases it with
      | Tagged nm items =>
        obtain ⟨halnum, hnsrc, hncol, hwitems⟩ := wfItem_tagged hwit
        have hszit : sizeListB items ≤ n := by
          have : sizeItem (.Tagged nm items) = 1 + sizeListB items := rfl
          omega
        rw [show flattenItem (.Tagged nm items)
            = .UnpairedTagOpen nm :: (flattenList items ++ [.UnpairedTagClose nm]) from rfl]
        rw [show ((BlockItem.UnpairedTagOpen nm :: (flattenList items ++ [.UnpairedTagClose nm]))
              ++ (flattenList l ++ k) : List BlockItem)
            = BlockItem.UnpairedTagOpen nm :: (flattenList items
              ++ ([BlockItem.UnpairedTagClose nm] ++ (flattenList l ++ k))) by simp]
        rw [List.foldl_cons]
        rw [pair_step_push s _ (fun nm2 h => by cases h)]
        rw [ih items (s ++ [BlockItem.UnpairedTagOpen nm]) _ hszit hwitems]
        rw [show ((s ++ [BlockItem.UnpairedTagOpen nm]) ++ items : List BlockItem)
            = s ++ BlockItem.UnpairedTagOpen nm :: items by simp]
        rw [show ([BlockItem.UnpairedTagClose nm] ++ (flattenList l ++ k) : List BlockItem)
            = BlockItem.UnpairedTagClose nm :: (flattenList l ++ k) from rfl]
        rw [List.foldl_cons]
        rw [pair_step_close_generic s items nm (wfList_no_needle hwitems nm) hnsrc
          (is_col_b_false_spec hncol)]
        rw [ih l (s ++ [BlockItem.Tagged nm items]) k hsz' hwl]
        rw [show ((s ++ [BlockItem.Tagged nm items]) ++ l : List BlockItem)
            = s ++ BlockItem.Tagged nm items :: l by simp]
      | Comment t =>
        rw [show flattenItem (.Comment t) = [.Comment t] from rfl]
        rw [show (([BlockItem.Comment t] : List BlockItem) ++ (flattenList l ++ k))
            = BlockItem.Comment t :: (flattenList l ++ k) from rfl]
        rw [List.foldl_cons, pair_step_push s _ (fun nm2 h => by cases h)]
        rw [ih l (s ++ [BlockItem.Comment t]) k hsz' hwl]
        rw [show ((s ++ [BlockItem.Comment t]) ++ l : List BlockItem)
            = s ++ BlockItem.Comment t :: l by simp]
      | Entity nm =>
        rw [show flattenItem (.Entity nm) = [.Entity nm] from rfl]
        rw [show (([BlockItem.Entity nm] : List BlockItem) ++ (flattenList l ++ k))
            = BlockItem.Entity nm :: (flattenList l ++ k) from rfl]
        rw [List.foldl_cons, pair_step_push s _ (fun nm2 h => by cases h)]
        rw [ih l (s ++ [BlockItem.Entity nm]) k hsz' hwl]
        rw [show ((s ++ [BlockItem.Entity nm]) ++ l : List BlockItem)
            = s ++ BlockItem.Entity nm :: l by simp]
      | EntityBr =>
        rw [show flattenItem .EntityBr = [.EntityBr] from rfl]
        rw [show (([BlockItem.EntityBr] : List BlockItem) ++ (flattenList l ++ k))
            = BlockItem.EntityBr :: (flattenList l ++ k) from rfl]
        rw [List.foldl_cons, pair_step_push s _ (fun nm2 h => by cases h)]
        rw [ih l (s ++ [BlockItem.EntityBr]) k hsz' hwl]
        rw [show ((s ++ [BlockItem.EntityBr]) ++ l : List BlockItem)
            = s ++ BlockItem.EntityBr :: l by simp]
      | EntityUnk =>
        rw [show flattenItem .EntityUnk = [.EntityUnk] from rfl]
        rw [show (([BlockItem.EntityUnk] : List BlockItem) ++ (flattenList l ++ k))
            = BlockItem.EntityUnk :: (flattenList l ++ k) from rfl]
        rw [List.foldl_cons, pair_step_push s _ (fun nm2 h => by cases h)]
        rw [ih l (s ++ [BlockItem.EntityUnk]) k hsz' hwl]
        rw [show ((s ++ [BlockItem.EntityUnk]) ++ l : List BlockItem)
            = s ++ BlockItem.EntityUnk :: l by simp]
      | ExternalLink u t =>
        rw [show flattenItem (.ExternalLink u t) = [.ExternalLink u t] from rfl]
        rw [show (([BlockItem.ExternalLink u t] : List BlockItem) ++ (flattenList l ++ k))
            = BlockItem.ExternalLink u t :: (flattenList l ++ k) from rfl]
        rw [List.foldl_cons, pair_step_push s _ (fun nm2 h => by cases h)]
        rw [ih l (s ++ [BlockItem.ExternalLink u t]) k hsz' hwl]
        rw [show ((s ++ [BlockItem.ExternalLink u t]) ++ l : List BlockItem)
            = s ++ BlockItem.ExternalLink u t :: l by simp]
      | Plain t =>
        rw [show flattenItem (.Plain t) = [.Plain t] from rfl]
        rw [show (([BlockItem.Plain t] : List BlockItem) ++ (flattenList l ++ k))
            = BlockItem.Plain t :: (flattenList l ++ k) from rfl]
        rw [List.foldl_cons, pair_step_push s _ (fun nm2 h => by cases h)]
        rw [ih l (s ++ [BlockItem.Plain t]) k hsz' hwl]
        rw [show ((s ++ [BlockItem.Plain t]) ++ l : List BlockItem)
            = s ++ BlockItem.Plain t :: l by simp]
      | Source t => simp [wfItem] at hwit
      | UnpairedTagOpen nm => simp [wfItem] at hwit
      | UnpairedTagClose nm => simp [wfItem] at hwit

/-! ## The trailing-sources group: emission, parsing, pairing, extraction -/

/-- Flat token form of the emitted trailing-sources group. -/
def srcFlat : List Str → List BlockItem
  | [] => []
  | [s] => [.UnpairedTagOpen "source".data, .Plain s, .UnpairedTagClose "source".data]
  | s :: ss => [.UnpairedTagOpen "source".data, .Plain s, .UnpairedTagClose "source".data,
      .Plain " + ".data] ++ srcFlat ss

/-- The trailing-sources group after pairing. -/
def srcPaired : List Str → List BlockItem
  | [] => []
  | [s] => [.Source s]
  | s :: ss => .Source s :: .Plain " + ".data :: srcPaired ss

theorem sources_display_head (x : Str) (xs : List Str) (r : Str) :
    plain_stop (sources_display (x :: xs) ++ r) = true := by
  cases xs with
  | nil => exact plain_stop_lt _
  | cons y ys => exact plain_stop_lt _

theorem sources_display_parse : ∀ srcs : List Str, srcs ≠ [] →
    (∀ s ∈ srcs, s ≠ [] ∧ ∀ c ∈ s, is_not_lt_gt c = true) →
    parse_items (sources_display srcs ++ "]</p>".data) =
      (srcFlat srcs ++ [.Plain "]".data, .UnpairedTagClose "p".data], []) := by
  intro srcs
  induction srcs with
  | nil => intro h; exact absurd rfl h
  | cons s ss ih =>
    intro _ hwf
    obtain ⟨hsne, hsall⟩ := hwf s (by simp)
    cases ss with
    | nil =>
      rw [show sources_display [s] = "<source>".data ++ s ++ "</source>".data from rfl]
      simp only [List.append_assoc]
      rw [show ("<source>".data ++ (s ++ ("</source>".data ++ "]</p>".data)) : Str)
          = "<".data ++ ("source".data ++ (">".data ++ (s ++ ("</source>".data ++ "]</p>".data))))
        from rfl]
      rw [parse_items_some (block_item_open_tok "source".data _ (by decide))]
      rw [parse_items_some (block_item_plain_tok s ("</source>".data ++ "]</p>".data) hsne hsall
        (plain_stop_lt _))]
      rw [show ("</source>".data ++ "]</p>".data : Str)
          = "</".data ++ ("source".data ++ (">".data ++ "]</p>".data)) from rfl]
      rw [parse_items_some (block_item_close_tok "source".data _ (by decide))]
      rw [show parse_items "]</p>".data
          = ([.Plain "]".data, .UnpairedTagClose "p".data], []) from by decide]
      rfl
    | cons s2 ss2 =>
      rw [show sources_display (s :: s2 :: ss2)
          = "<source>".data ++ s ++ "</source>".data ++ " + ".data
            ++ sources_display (s2 :: ss2) from rfl]
      simp only [List.append_assoc]
      rw [show ("<source>".data ++ (s ++ ("</source>".data ++ (" + ".data
            ++ (sources_display (s2 :: ss2) ++ "]</p>".data)))) : Str)
          = "<".data ++ ("source".data ++ (">".data ++ (s ++ ("</source>".data ++ (" + ".data
            ++ (sources_display (s2 :: ss2) ++ "]</p>".data)))))) from rfl]
      rw [parse_items_some (block_item_open_tok "source".data _ (by decide))]
      rw [parse_items_some (block_item_plain_tok s
        ("</source>".data ++ (" + ".data ++ (sources_display (s2 :: ss2) ++ "]</p>".data)))
        hsne hsall (plain_stop_lt _))]
      rw [show ("</source>".data ++ (" + ".data ++ (sources_display (s2 :: ss2)
            ++ "]</p>".data)) : Str)
          = "</".data ++ ("source".data ++ (">".data ++ (" + ".data
            ++ (sources_display (s2 :: ss2) ++ "]</p>".data)))) from rfl]
      rw [parse_items_some (block_item_close_tok "source".data _ (by decide))]
      rw [parse_items_some (block_item_plain_tok " + ".data
        (sources_display (s2 :: ss2) ++ "]</p>".data) (by decide) (by decide)
        (sources_display_head s2 ss2 _))]
      rw [ih (by simp) (fun x hx => hwf x (by simp [hx]))]
      rw [show srcFlat (s :: s2 :: ss2)
          = [.UnpairedTagOpen "source".data, .Plain s, .UnpairedTagClose "source".data,
              .Plain " + ".data] ++ srcFlat (s2 :: ss2) from rfl]
      rfl

theorem pair_step_close_source (pre : List BlockItem) (s : Str) :
    pair_step (pre ++ [.UnpairedTagOpen "source".data, .Plain s])
        (.UnpairedTagClose "source".data) = pre ++ [.Source s] := by
  have hsearch : linear_search_rev (pre ++ [.UnpairedTagOpen "source".data, .Plain s])
      (.UnpairedTagOpen "source".data) = some pre.length := by
    unfold linear_search_rev
    rw [show (pre ++ [BlockItem.UnpairedTagOpen "source".data, BlockItem.Plain s]
          : List BlockItem)
        = (pre ++ [BlockItem.UnpairedTagOpen "source".data]) ++ [BlockItem.Plain s] by simp]
    rw [lsr_append_none (lsr_all_false (by
      intro x hx
      simp only [List.mem_singleton] at hx
      subst hx
      rw [beq_eq_false_iff_ne]
      intro h
      cases h))]
    rw [@lsr_append_some _ pre _ _ _ (lsr_single_true (by simp))]
    simp
  have hlen : (pre ++ [BlockItem.UnpairedTagOpen "source".data, BlockItem.Plain s]).length
      = pre.length + 2 := by simp
  have hlast : (pre ++ [BlockItem.UnpairedTagOpen "source".data,
      BlockItem.Plain s]).getLast? = some (.Plain s) := by
    rw [show (pre ++ [BlockItem.UnpairedTagOpen "source".data, BlockItem.Plain s]
          : List BlockItem)
        = (pre ++ [BlockItem.UnpairedTagOpen "source".data]) ++ [BlockItem.Plain s] by simp]
    exact List.getLast?_concat _
  have htake : (pre ++ [BlockItem.UnpairedTagOpen "source".data,
      BlockItem.Plain s]).take pre.length = pre := by
    have := List.take_left pre [BlockItem.UnpairedTagOpen "source".data, BlockItem.Plain s]
    simpa using this
  unfold pair_step
  dsimp only
  rw [hsearch]
  dsimp only
  rw [if_pos rfl, hlen, if_pos rfl, hlast]
  dsimp only
  rw [htake]

theorem src_pair : ∀ srcs : List Str, srcs ≠ [] →
    ∀ pre : List BlockItem,
    List.foldl pair_step pre (srcFlat srcs ++ [BlockItem.Plain "]".data]) =
      pre ++ srcPaired srcs ++ [BlockItem.Plain "]".data] := by
  intro srcs
  induction srcs with
  | nil => intro h; exact absurd rfl h
  | cons s ss ih =>
    intro _ pre
    cases ss with
    | nil =>
      rw [show srcFlat [s] = [.UnpairedTagOpen "source".data, .Plain s,
        .UnpairedTagClose "source".data] from rfl]
      rw [show (([BlockItem.UnpairedTagOpen "source".data, BlockItem.Plain s,
            BlockItem.UnpairedTagClose "source".data] : List BlockItem)
            ++ [BlockItem.Plain "]".data])
          = [BlockItem.UnpairedTagOpen "source".data, BlockItem.Plain s,
            BlockItem.UnpairedTagClose "source".data, BlockItem.Plain "]".data] from rfl]
      rw [List.foldl_cons, pair_step_push pre _ (fun nm2 h => by cases h)]
      rw [List.foldl_cons, pair_step_push _ _ (fun nm2 h => by cases h)]
      rw [show ((pre ++ [BlockItem.UnpairedTagOpen "source".data]) ++ [BlockItem.Plain s]
            : List BlockItem)
          = pre ++ [BlockItem.UnpairedTagOpen "source".data, BlockItem.Plain s] by simp]
      rw [List.foldl_cons, pair_step_close_source pre s]
      rw [List.foldl_cons, pair_step_push _ _ (fun nm2 h => by cases h)]
      rw [show List.foldl pair_step ((pre ++ [BlockItem.Source s]) ++ [BlockItem.Plain "]".data])
            ([] : List BlockItem)
          = (pre ++ [BlockItem.Source s]) ++ [BlockItem.Plain "]".data] from rfl]
      simp [srcPaired]
    | cons s2 ss2 =>
      rw [show srcFlat (s :: s2 :: ss2)
          = [.UnpairedTagOpen "source".data, .Plain s, .UnpairedTagClose "source".data,
              .Plain " + ".data] ++ srcFlat (s2 :: ss2) from rfl]
      rw [show (([BlockItem.UnpairedTagOpen "source".data, BlockItem.Plain s,
            BlockItem.UnpairedTagClose "source".data, BlockItem.Plain " + ".data]
            ++ srcFlat (s2 :: ss2) : List BlockItem) ++ [BlockItem.Plain "]".data])
          = BlockItem.UnpairedTagOpen "source".data :: BlockItem.Plain s ::
            BlockItem.UnpairedTagClose "source".data :: BlockItem.Plain " + ".data ::
            (srcFlat (s2 :: ss2) ++ [BlockItem.Plain "]".data]) by simp]
      rw [List.foldl_cons, pair_step_push pre _ (fun nm2 h => by cases h)]
      rw [List.foldl_cons, pair_step_push _ _ (fun nm2 h => by cases h)]
      rw [show ((pre ++ [BlockItem.UnpairedTagOpen "source".data]) ++ [BlockItem.Plain s]
            : List BlockItem)
          = pre ++ [BlockItem.UnpairedTagOpen "source".data, BlockItem.Plain s] by simp]
      rw [List.foldl_cons, pair_step_close_source pre s]
      rw [List.foldl_cons, pair_step_push _ _ (fun nm2 h => by cases h)]
      rw [ih (by simp) ((pre ++ [BlockItem.Source s]) ++ [BlockItem.Plain " + ".data])]
      rw [show srcPaired (s :: s2 :: ss2)
          = BlockItem.Source s :: BlockItem.Plain " + ".data :: srcPaired (s2 :: ss2) from rfl]
      simp

/-! ## Extraction of trailing sources -/

theorem is_bracket_open_source (s : Str) : is_bracket_open (.Source s) = false := rfl

theorem srcPaired_no_bracket : ∀ srcs : List Str,
    ∀ x ∈ srcPaired srcs ++ [BlockItem.Plain "]".data], is_bracket_open x = false := by
  intro srcs
  induction srcs with
  | nil =>
    intro x hx
    simp only [srcPaired, List.nil_append, List.mem_singleton] at hx
    subst hx; decide
  | cons s ss ih =>
    intro x hx
    cases ss with
    | nil =>
      simp only [srcPaired, List.cons_append, List.nil_append, List.mem_cons,
        List.mem_singleton] at hx
      rcases hx with rfl | rfl | hx
      · exact is_bracket_open_source s
      · decide
      · simp at hx
    | cons s2 ss2 =>
      rw [show srcPaired (s :: s2 :: ss2)
          = BlockItem.Source s :: BlockItem.Plain " + ".data :: srcPaired (s2 :: ss2)
        from rfl] at hx
      simp only [List.cons_append, List.mem_cons] at hx
      rcases hx with rfl | rfl | hx
      · exact is_bracket_open_source s
      · decide
      · exact ih x (by simpa using hx)

theorem get_source_source (s : Str) : get_source (.Source s) = some s := rfl

theorem filterMap_srcPaired : ∀ srcs : List Str,
    (srcPaired srcs ++ [BlockItem.Plain "]".data]).filterMap get_source = srcs := by
  intro srcs
  induction srcs with
  | nil => decide
  | cons s ss ih =>
    cases ss with
    | nil =>
      rw [show srcPaired [s] = [BlockItem.Source s] from rfl]
      simp [List.filterMap_cons, get_source_source]
      rfl
    | cons s2 ss2 =>
      rw [show srcPaired (s :: s2 :: ss2)
          = BlockItem.Source s :: BlockItem.Plain " + ".data :: srcPaired (s2 :: ss2)
        from rfl]
      simp only [List.cons_append, List.filterMap_cons, get_source_source]
      rw [show get_source (BlockItem.Plain " + ".data) = none from rfl]
      rw [ih]

theorem srcPaired_cons (s : Str) (ss : List Str) :
    ∃ t, srcPaired (s :: ss) = BlockItem.Source s :: t := by
  cases ss with
  | nil => exact ⟨[], rfl⟩
  | cons s2 ss2 => exact ⟨_, rfl⟩

theorem extract_sources_wf (items : List BlockItem) (hwf : wfList items = true) :
    extract_sources items = some (items, []) := by
  unfold extract_sources
  cases hlast : items.getLast? with
  | none => rfl
  | some x =>
    cases x with
    | Plain t =>
      dsimp only
      by_cases ht : t = "]".data
      · rw [if_pos ht]
        cases hsearch : linear_search_rev_by items is_bracket_open with
        | none => rfl
        | some idx =>
          dsimp only
          cases hget : items.get? (idx + 1) with
          | none => rfl
          | some y =>
            cases y with
            | Source s =>
              exfalso
              have hmem : BlockItem.Source s ∈ items := List.get?_mem hget
              have := wfList_mem hwf _ hmem
              simp [wfItem] at this
            | Tagged a b => rfl
            | Comment a => rfl
            | Entity a => rfl
            | EntityBr => rfl
            | EntityUnk => rfl
            | ExternalLink a b => rfl
            | Plain a => rfl
            | UnpairedTagOpen a => rfl
            | UnpairedTagClose a => rfl
      · rw [if_neg ht]
    | Tagged a b => rfl
    | Comment a => rfl
    | Entity a => rfl
    | EntityBr => rfl
    | EntityUnk => rfl
    | ExternalLink a b => rfl
    | Source a => rfl
    | UnpairedTagOpen a => rfl
    | UnpairedTagClose a => rfl

theorem extract_sources_group (items : List BlockItem) (srcs : List Str)
    (hne : srcs ≠ []) :
    extract_sources (items ++ [BlockItem.EntityBr, BlockItem.Plain "[".data]
      ++ srcPaired srcs ++ [BlockItem.Plain "]".data]) = some (items, srcs) := by
  obtain ⟨s1, rest, rfl⟩ : ∃ s1 rest, srcs = s1 :: rest := by
    cases srcs with
    | nil => exact absurd rfl hne
    | cons a b => exact ⟨a, b, rfl⟩
  obtain ⟨tail, htail⟩ := srcPaired_cons s1 rest
  have hlast : (items ++ [BlockItem.EntityBr, BlockItem.Plain "[".data]
      ++ srcPaired (s1 :: rest) ++ [BlockItem.Plain "]".data]).getLast?
      = some (BlockItem.Plain "]".data) := List.getLast?_concat _
  have hassoc : (items ++ [BlockItem.EntityBr, BlockItem.Plain "[".data]
        ++ srcPaired (s1 :: rest) ++ [BlockItem.Plain "]".data])
      = (items ++ [BlockItem.EntityBr, BlockItem.Plain "[".data])
        ++ (srcPaired (s1 :: rest) ++ [BlockItem.Plain "]".data]) := by simp
  have hlen2 : (items ++ [BlockItem.EntityBr, BlockItem.Plain "[".data]).length
      = items.length + 2 := by simp
  have hsearch : linear_search_rev_by (items ++ [BlockItem.EntityBr, BlockItem.Plain "[".data]
      ++ srcPaired (s1 :: rest) ++ [BlockItem.Plain "]".data]) is_bracket_open
      = some (items.length + 1) := by
    rw [hassoc]
    rw [lsr_append_none (lsr_all_false (srcPaired_no_bracket (s1 :: rest)))]
    rw [@lsr_append_some _ items _ _ _
      (show linear_search_rev_by [BlockItem.EntityBr, BlockItem.Plain "[".data] is_bracket_open
        = some 1 from by decide)]
  have hget : (items ++ [BlockItem.EntityBr, BlockItem.Plain "[".data]
      ++ srcPaired (s1 :: rest) ++ [BlockItem.Plain "]".data]).get? (items.length + 1 + 1)
      = some (BlockItem.Source s1) := by
    rw [hassoc, List.get?_append_right (by omega)]
    rw [hlen2, show items.length + 1 + 1 - (items.length + 2) = 0 from by omega]
    rw [htail]
    rfl
  have hdrop : (items ++ [BlockItem.EntityBr, BlockItem.Plain "[".data]
      ++ srcPaired (s1 :: rest) ++ [BlockItem.Plain "]".data]).drop (items.length + 1 + 1)
      = srcPaired (s1 :: rest) ++ [BlockItem.Plain "]".data] := by
    rw [hassoc]
    rw [show items.length + 1 + 1
        = (items ++ [BlockItem.EntityBr, BlockItem.Plain "[".data]).length from by simp]
    exact List.drop_left _ _
  have hgetj : (items ++ [BlockItem.EntityBr, BlockItem.Plain "[".data]
      ++ srcPaired (s1 :: rest) ++ [BlockItem.Plain "]".data]).get? items.length
      = some BlockItem.EntityBr := by
    rw [show (items ++ [BlockItem.EntityBr, BlockItem.Plain "[".data]
          ++ srcPaired (s1 :: rest) ++ [BlockItem.Plain "]".data])
        = items ++ ([BlockItem.EntityBr, BlockItem.Plain "[".data]
          ++ (srcPaired (s1 :: rest) ++ [BlockItem.Plain "]".data])) by simp]
    rw [List.get?_append_right (le_refl _), Nat.sub_self]
    rfl
  have htake : (items ++ [BlockItem.EntityBr, BlockItem.Plain "[".data]
      ++ srcPaired (s1 :: rest) ++ [BlockItem.Plain "]".data]).take items.length
      = items := by
    rw [hassoc, List.append_assoc, List.take_left]
  unfold extract_sources
  rw [hlast]
  dsimp only
  rw [if_pos rfl, hsearch]
  dsimp only
  rw [hget]
  dsimp only
  rw [hdrop, filterMap_srcPaired]
  rw [hgetj]
  rw [if_pos rfl]
  exact congrArg (fun l => some (l, s1 :: rest)) htake

/-! ## The block round trip: emit with `Display`, re-parse, re-process -/

theorem pair_up_flatten (items : List BlockItem) (hitems : wfList items = true) :
    pair_up_items (flattenList items) = items := by
  unfold pair_up_items
  have h := pair_flatten_main (sizeListB items) items [] [] le_rfl hitems
  simpa using h

/-- Shared round-trip core: re-parsing the emission of a well-formed block
recovers the block exactly. -/
theorem parse_block_display_block (b : Block) (h : wfBlock b = true) :
    parse_block (display_block b) = some b := by
  obtain ⟨items, sources⟩ := b
  have hitems : wfList items = true := by
    simp only [wfBlock, Bool.and_eq_true] at h
    exact h.1
  have hsrc : ∀ s ∈ sources, s ≠ [] ∧ ∀ c ∈ s, is_not_lt_gt c = true := by
    intro s hs
    simp only [wfBlock, Bool.and_eq_true] at h
    have h2 : (!s.isEmpty && s.all is_not_lt_gt) = true := by
      rw [List.all_eq_true] at h
      · exact h.2 s hs
    rw [Bool.and_eq_true] at h2
    obtain ⟨ha, hb⟩ := h2
    constructor
    · intro hnil
      subst hnil
      exact absurd ha (by decide)
    · intro c hc
      rw [List.all_eq_true] at hb
      exact hb c hc
  have hpb : ∀ s : Str, parse_block s
      = if (parse_items s).2.isEmpty then process_block_items (parse_items s).1 else none :=
    fun s => rfl
  cases sources with
  | nil =>
    have hdisp : display_block ⟨items, []⟩
        = "<p>".data ++ (displayList items ++ "</p>".data) := by
      simp [display_block]
    have hparse : parse_items ("<p>".data ++ (displayList items ++ "</p>".data))
        = (BlockItem.UnpairedTagOpen "p".data ::
            (flattenList items ++ [BlockItem.UnpairedTagClose "p".data]), []) := by
      rw [show ("<p>".data ++ (displayList items ++ "</p>".data) : Str)
          = "<".data ++ ("p".data ++ (">".data ++ (displayList items ++ "</p>".data)))
        from rfl]
      rw [parse_items_some (block_item_open_tok "p".data _ (by decide))]
      rw [parse_display_main (sizeListB items) items "</p>".data le_rfl hitems (by decide)]
      rw [show parse_items "</p>".data = ([BlockItem.UnpairedTagClose "p".data], [])
        from by decide]
    rw [hpb, hdisp, hparse]
    dsimp only
    unfold process_block_items
    dsimp only
    rw [if_pos rfl, List.getLast?_concat]
    dsimp only
    rw [if_pos rfl, List.dropLast_concat, pair_up_flatten items hitems,
      extract_sources_wf items hitems]
    rfl
  | cons s1 ss =>
    have hdisp : display_block ⟨items, s1 :: ss⟩
        = "<p>".data ++ (displayList items
            ++ ("<br/\n[".data ++ (sources_display (s1 :: ss) ++ "]</p>".data))) := by
      simp [display_block]
    have htail : parse_items ("<br/\n[".data ++ (sources_display (s1 :: ss) ++ "]</p>".data))
        = (BlockItem.EntityBr :: BlockItem.Plain "[".data ::
            (srcFlat (s1 :: ss) ++ [BlockItem.Plain "]".data,
              BlockItem.UnpairedTagClose "p".data]), []) := by
      rw [show ("<br/\n[".data ++ (sources_display (s1 :: ss) ++ "]</p>".data) : Str)
          = "<br/\n".data ++ ("[".data ++ (sources_display (s1 :: ss) ++ "]</p>".data))
        from rfl]
      rw [parse_items_some (block_item_br_tok _)]
      rw [parse_items_some (block_item_plain_tok "[".data _ (by decide) (by decide)
        (sources_display_head s1 ss _))]
      rw [sources_display_parse (s1 :: ss) (by simp) hsrc]
    have hparse : parse_items ("<p>".data ++ (displayList items
          ++ ("<br/\n[".data ++ (sources_display (s1 :: ss) ++ "]</p>".data))))
        = (BlockItem.UnpairedTagOpen "p".data ::
            ((flattenList items ++ (BlockItem.EntityBr :: BlockItem.Plain "[".data ::
              (srcFlat (s1 :: ss) ++ [BlockItem.Plain "]".data])))
             ++ [BlockItem.UnpairedTagClose "p".data]), []) := by
      rw [show ("<p>".data ++ (displayList items
            ++ ("<br/\n[".data ++ (sources_display (s1 :: ss) ++ "]</p>".data))) : Str)
          = "<".data ++ ("p".data ++ (">".data ++ (displayList items
            ++ ("<br/\n[".data ++ (sources_display (s1 :: ss) ++ "]</p>".data)))))
        from rfl]
      rw [parse_items_some (block_item_open_tok "p".data _ (by decide))]
      rw [parse_display_main (sizeListB items) items
        ("<br/\n[".data ++ (sources_display (s1 :: ss) ++ "]</p>".data)) le_rfl hitems
        (show plain_stop ("<br/\n[".data ++ (sources_display (s1 :: ss) ++ "]</p>".data)) = true
          from plain_stop_lt _)]
      rw [htail]
      simp
    have hfold : pair_up_items (flattenList items
          ++ (BlockItem.EntityBr :: BlockItem.Plain "[".data ::
            (srcFlat (s1 :: ss) ++ [BlockItem.Plain "]".data])))
        = items ++ [BlockItem.EntityBr, BlockItem.Plain "[".data]
            ++ srcPaired (s1 :: ss) ++ [BlockItem.Plain "]".data] := by
      unfold pair_up_items
      rw [pair_flatten_main (sizeListB items) items []
        (BlockItem.EntityBr :: BlockItem.Plain "[".data ::
          (srcFlat (s1 :: ss) ++ [BlockItem.Plain "]".data])) le_rfl hitems]
      rw [List.nil_append]
      rw [List.foldl_cons, pair_step_push items _ (fun nm h => by cases h)]
      rw [List.foldl_cons, pair_step_push _ _ (fun nm h => by cases h)]
      rw [src_pair (s1 :: ss) (by simp) ((items ++ [BlockItem.EntityBr])
        ++ [BlockItem.Plain "[".data])]
      simp
    rw [hpb, hdisp, hparse]
    dsimp only
    unfold process_block_items
    dsimp only
    rw [if_pos rfl, List.getLast?_concat]
    dsimp only
    rw [if_pos rfl, List.dropLast_concat, hfold,
      extract_sources_group items (s1 :: ss) (by simp)]
    rfl

/-! ## Byte-stable re-parsing of blocks with dangle-allowed residuals

The emitter is idempotent on a class wider than `wfBlock`: top-level items
may also be dangle-allowed `UnpairedTagOpen`/`UnpairedTagClose` residuals,
which emit without error markers.  Re-parsing may re-associate such
residuals into `Tagged` nodes — the tree changes — but the re-emitted bytes
are identical, because a dangling open, its enclosed span and the capturing
close emit exactly the bytes of the `Tagged` node they collapse into. -/

/-- `wfItem` extended: dangling opens and closes with dangle-allowed names
(which the emitter writes without an error marker) are also admitted. -/
def wfItemTop : BlockItem → Bool
  | .UnpairedTagOpen nm => dangle_allowed.contains nm
  | .UnpairedTagClose nm => dangle_allowed.contains nm
  | it => wfItem it

def wfListTop : List BlockItem → Bool
  | [] => true
  | it :: l => wfItemTop it && !(is_plain_item it && head_is_plain l) && wfListTop l

/-- `wfBlock` with the extended top-level item predicate. -/
def wfBlockD (b : Block) : Bool :=
  wfListTop b.items && (b.sources.all (fun s => !s.isEmpty && s.all is_not_lt_gt))

theorem wfListTop_cons {it : BlockItem} {l : List BlockItem}
    (h : wfListTop (it :: l) = true) :
    wfItemTop it = true ∧ (is_plain_item it = true → head_is_plain l = false) ∧
      wfListTop l = true := by
  simp only [wfListTop] at h
  simp at h
  refine ⟨h.1.1, fun hp => ?_, h.2⟩
  rcases h.1.2 with h2 | h2
  · rw [hp] at h2; cases h2
  · exact h2

theorem dangle_spec (nm : Str) (hc : dangle_allowed.contains nm = true) :
    alnum_name nm = true ∧ nm ≠ "source".data ∧ nm ≠ "col".data := by
  have hm : nm ∈ dangle_allowed := by simpa using hc
  simp only [dangle_allowed, List.mem_cons, List.mem_singleton, List.not_mem_nil] at hm
  rcases hm with rfl | rfl | rfl | rfl | hm
  · exact ⟨by decide, by decide, by decide⟩
  · exact ⟨by decide, by decide, by decide⟩
  · exact ⟨by decide, by decide, by decide⟩
  · exact ⟨by decide, by decide, by decide⟩
  · cases hm

theorem displayItem_open_dangle (nm : Str) (hc : dangle_allowed.contains nm = true) :
    displayItem (.UnpairedTagOpen nm) = "<".data ++ nm ++ ">".data := by
  rw [show displayItem (.UnpairedTagOpen nm)
      = (if dangle_allowed.contains nm then "<".data ++ nm ++ ">".data
         else "[ERROR->]<".data ++ nm ++ ">".data) from rfl]
  rw [if_pos hc]

theorem displayItem_close_dangle (nm : Str) (hc : dangle_allowed.contains nm = true) :
    displayItem (.UnpairedTagClose nm) = "</".data ++ nm ++ ">".data := by
  rw [show displayItem (.UnpairedTagClose nm)
      = (if dangle_allowed.contains nm then "</".data ++ nm ++ ">".data
         else "[ERROR->]</".data ++ nm ++ ">".data) from rfl]
  rw [if_pos hc]

theorem plain_stop_display_top {it : BlockItem} (hwf : wfItemTop it = true)
    (hnp : is_plain_item it = false) (r : Str) :
    plain_stop (displayItem it ++ r) = true := by
  cases it with
  | Comment t => exact plain_stop_lt _
  | Entity n => exact plain_stop_lt _
  | EntityBr => exact plain_stop_lt _
  | EntityUnk => exact plain_stop_lt _
  | ExternalLink u t => exact plain_stop_lt _
  | Tagged n items => exact plain_stop_lt _
  | Plain t => simp [is_plain_item] at hnp
  | Source t => simp [wfItemTop, wfItem] at hwf
  | UnpairedTagOpen n =>
    rw [displayItem_open_dangle n hwf]
    exact plain_stop_lt _
  | UnpairedTagClose n =>
    rw [displayItem_close_dangle n hwf]
    exact plain_stop_lt _

/-- The lexing direction over the extended item class: the emission of a
`wfListTop` list lexes back to exactly its flat token sequence (dangling
dangle-allowed items emit bare `<nm>` / `</nm>`, which lex to the same
open/close tokens a `Tagged` pair produces). -/
theorem parse_display_top : ∀ its rest, wfListTop its = true → plain_stop rest = true →
    parse_items (displayList its ++ rest) =
      (flattenList its ++ (parse_items rest).1, (parse_items rest).2) := by
  intro its
  induction its with
  | nil => intro rest _ _; simp [displayList, flattenList]
  | cons it l ih =>
    intro rest hw hr
    obtain ⟨hwit, hpp, hwl⟩ := wfListTop_cons hw
    rw [show displayList (it :: l) = displayItem it ++ displayList l from rfl,
      List.append_assoc]
    cases it with
    | Plain t =>
      obtain ⟨htne, htall⟩ := wfItem_plain hwit
      have hstop : plain_stop (displayList l ++ rest) = true := by
        cases l with
        | nil => simpa [displayList] using hr
        | cons it2 l2 =>
          obtain ⟨hw2, _, _⟩ := wfListTop_cons hwl
          have hnp2 : is_plain_item it2 = false :=
            head_is_plain_false (hpp (by simp [is_plain_item]))
          rw [show displayList (it2 :: l2) = displayItem it2 ++ displayList l2 from rfl,
            List.append_assoc]
          exact plain_stop_display_top hw2 hnp2 _
      rw [show displayItem (.Plain t) = t from rfl]
      rw [parse_items_some (block_item_plain_tok t (displayList l ++ rest) htne htall hstop)]
      rw [ih rest hwl hr]
      simp [flattenList, flattenItem]
    | Comment t =>
      have hcom := wfItem_comment hwit
      rw [show displayItem (.Comment t) = "<--".data ++ t ++ "-->".data from rfl]
      simp only [List.append_assoc]
      rw [parse_items_some (block_item_comment_tok t _ hcom)]
      rw [ih rest hwl hr]
      simp [flattenList, flattenItem]
    | Entity nm =>
      obtain ⟨halnum, hbr⟩ := wfItem_entity hwit
      rw [show displayItem (.Entity nm) = "<".data ++ nm ++ "/".data from rfl]
      simp only [List.append_assoc]
      rw [parse_items_some (block_item_entity_tok nm _ halnum hbr)]
      rw [ih rest hwl hr]
      simp [flattenList, flattenItem]
    | EntityBr =>
      rw [show displayItem .EntityBr = "<br/\n".data from rfl]
      rw [parse_items_some (block_item_br_tok (displayList l ++ rest))]
      rw [ih rest hwl hr]
      simp [flattenList, flattenItem]
    | EntityUnk =>
      rw [show displayItem .EntityUnk = "<?/".data from rfl]
      rw [parse_items_some (block_item_unk_tok (displayList l ++ rest))]
      rw [ih rest hwl hr]
      simp [flattenList, flattenItem]
    | ExternalLink u t =>
      obtain ⟨hune, huall, htne, htall⟩ := wfItem_link hwit
      rw [show displayItem (.ExternalLink u t)
          = "<a href=\"".data ++ u ++ "\">".data ++ t ++ "</a>".data from rfl]
      simp only [List.append_assoc]
      rw [parse_items_some (block_item_link_tok u t _ hune huall htne htall)]
      rw [ih rest hwl hr]
      simp [flattenList, flattenItem]
    | Tagged nm items =>
      obtain ⟨halnum, hnsrc, hncol, hwitems⟩ := wfItem_tagged hwit
      rw [show displayItem (.Tagged nm items)
          = "<".data ++ nm ++ ">".data ++ displayList items ++ "</".data ++ nm ++ ">".data
        from rfl]
      simp only [List.append_assoc]
      rw [parse_items_some (block_item_open_tok nm _ halnum)]
      rw [parse_display_main (sizeListB items) items
        ("</".data ++ (nm ++ (">".data ++ (displayList l ++ rest)))) le_rfl hwitems
        (plain_stop_lt _)]
      rw [parse_items_some (block_item_close_tok nm _ halnum)]
      rw [ih rest hwl hr]
      simp [flattenList, flattenItem, List.append_assoc]
    | Source t => simp [wfItemTop, wfItem] at hwit
    | UnpairedTagOpen nm =>
      obtain ⟨halnum, -, -⟩ := dangle_spec nm hwit
      rw [displayItem_open_dangle nm hwit]
      simp only [List.append_assoc]
      rw [parse_items_some (block_item_open_tok nm _ halnum)]
      rw [ih rest hwl hr]
      simp [flattenList, flattenItem]
    | UnpairedTagClose nm =>
      obtain ⟨halnum, -, -⟩ := dangle_spec nm hwit
      rw [displayItem_close_dangle nm hwit]
      simp only [List.append_assoc]
      rw [parse_items_some (block_item_close_tok nm _ halnum)]
      rw [ih rest hwl hr]
      simp [flattenList, flattenItem]

theorem displayList_append (a b : List BlockItem) :
    displayList (a ++ b) = displayList a ++ displayList b := by
  induction a with
  | nil => rfl
  | cons x xs ih =>
    rw [show displayList ((x :: xs) ++ b) = displayItem x ++ displayList (xs ++ b) from rfl,
      ih, show displayList (x :: xs) = displayItem x ++ displayList xs from rfl,
      List.append_assoc]

theorem lsr_decomp {α : Type} {l : List α} {p : α → Bool} {i : Nat}
    (h : linear_search_rev_by l p = some i) :
    ∃ pre x post, l = pre ++ x :: post ∧ pre.length = i ∧ p x = true := by
  induction l generalizing i with
  | nil => cases h
  | cons a as ih =>
    unfold linear_search_rev_by at h
    cases hr : linear_search_rev_by as p with
    | some j =>
      rw [hr] at h
      dsimp only at h
      injection h with h1
      obtain ⟨pre, x, post, hdec, hlen, hp⟩ := ih hr
      exact ⟨a :: pre, x, post, by rw [hdec]; rfl, by simp [hlen, ← h1], hp⟩
    | none =>
      rw [hr] at h
      dsimp only at h
      by_cases hp : p a = true
      · rw [if_pos hp] at h
        injection h with h1
        exact ⟨[], a, as, rfl, by simp [← h1], hp⟩
      · rw [if_neg hp] at h
        exact Option.noConfusion h

/-- A close that finds its open reduces generically (outside the `source`
and `col` special names): the stack splits at the found index and the span
above it becomes the `Tagged` body. -/
theorem pair_step_close_found (S : List BlockItem) (nm : Str) (i : Nat)
    (hsr : linear_search_rev S (.UnpairedTagOpen nm) = some i)
    (hnsrc : nm ≠ "source".data) (hncol : nm ≠ "col".data) :
    ∃ pre post, S = pre ++ .UnpairedTagOpen nm :: post ∧ pre.length = i ∧
      pair_step S (.UnpairedTagClose nm) = pre ++ [.Tagged nm post] := by
  obtain ⟨pre, x, post, hdec, hlen, hp⟩ := lsr_decomp hsr
  have hx : x = BlockItem.UnpairedTagOpen nm := eq_of_beq hp
  subst hx
  refine ⟨pre, post, hdec, hlen, ?_⟩
  unfold pair_step
  dsimp only
  rw [hsr]
  dsimp only
  rw [if_neg hnsrc]
  rw [if_neg (fun hand => hncol hand.2)]
  subst hdec
  subst hlen
  have ht : (pre ++ BlockItem.UnpairedTagOpen nm :: post).take pre.length = pre := by
    have h' := List.take_left pre (BlockItem.UnpairedTagOpen nm :: post)
    simpa using h'
  have hd : (pre ++ BlockItem.UnpairedTagOpen nm :: post).drop (pre.length + 1) = post := by
    rw [show (pre ++ BlockItem.UnpairedTagOpen nm :: post : List BlockItem)
        = (pre ++ [BlockItem.UnpairedTagOpen nm]) ++ post by simp]
    rw [show pre.length + 1 = (pre ++ [BlockItem.UnpairedTagOpen nm]).length by simp]
    exact List.drop_left _ _
  rw [ht, hd]

theorem pair_step_close_none (S : List BlockItem) (nm : Str)
    (h : linear_search_rev S (.UnpairedTagOpen nm) = none) :
    pair_step S (.UnpairedTagClose nm) = S ++ [.UnpairedTagClose nm] := by
  unfold pair_step
  dsimp only
  rw [h]

theorem wfList_singleton {it : BlockItem} (h : wfItem it = true) : wfList [it] = true := by
  simp [wfList, head_is_plain, h]

theorem pair_step_wf_item (it : BlockItem) (hwfit : wfItem it = true)
    (S : List BlockItem) (X : List BlockItem) :
    List.foldl pair_step S (flattenItem it ++ X) = List.foldl pair_step (S ++ [it]) X := by
  have h := pair_flatten_main (sizeListB [it]) [it] S X le_rfl (wfList_singleton hwfit)
  rw [show flattenList [it] = flattenItem it ++ ([] : List BlockItem) from rfl] at h
  simpa using h

/-- The pairing direction over the extended item class: folding the flat
tokens of a `wfListTop` list over any `Source`-free stack reaches a
`Source`-free stack whose emission extends the old one by exactly the
emission of the list.  The tree may re-associate (a dangle-allowed close may
capture a dangle-allowed open into a `Tagged` node), but the bytes match
because name equality makes the open, body and close emit the `Tagged`
node's exact rendering. -/
theorem pair_top : ∀ its : List BlockItem, wfListTop its = true →
    ∀ S k : List BlockItem, (∀ x ∈ S, ∀ t, x ≠ BlockItem.Source t) →
    ∃ T, List.foldl pair_step S (flattenList its ++ k) = List.foldl pair_step T k
      ∧ displayList T = displayList S ++ displayList its
      ∧ (∀ x ∈ T, ∀ t, x ≠ BlockItem.Source t) := by
  intro its
  induction its with
  | nil =>
    intro _ S k hS
    exact ⟨S, by simp [flattenList], by simp [displayList], hS⟩
  | cons it l ih =>
    intro hw S k hS
    obtain ⟨hwit, hpp, hwl⟩ := wfListTop_cons hw
    rw [show flattenList (it :: l) = flattenItem it ++ flattenList l from rfl]
    cases it with
    | UnpairedTagOpen nm =>
      rw [show flattenItem (BlockItem.UnpairedTagOpen nm)
          = [BlockItem.UnpairedTagOpen nm] from rfl]
      rw [show (([BlockItem.UnpairedTagOpen nm] ++ flattenList l : List BlockItem) ++ k)
          = BlockItem.UnpairedTagOpen nm :: (flattenList l ++ k) by simp]
      rw [List.foldl_cons, pair_step_push S _ (fun nm2 h => by cases h)]
      obtain ⟨T, h1, h2, h3⟩ := ih hwl (S ++ [BlockItem.UnpairedTagOpen nm]) k (by
        intro x hx t'
        rcases List.mem_append.mp hx with hx | hx
        · exact hS x hx t'
        · simp only [List.mem_singleton] at hx
          subst hx
          intro he
          cases he)
      refine ⟨T, h1, ?_, h3⟩
      rw [h2, displayList_append]
      rw [show displayList [BlockItem.UnpairedTagOpen nm]
          = displayItem (BlockItem.UnpairedTagOpen nm) ++ displayList [] from rfl]
      rw [show displayList (BlockItem.UnpairedTagOpen nm :: l)
          = displayItem (BlockItem.UnpairedTagOpen nm) ++ displayList l from rfl]
      simp [displayList]
    | UnpairedTagClose nm =>
      have hc : dangle_allowed.contains nm = true := hwit
      obtain ⟨halnum, hnsrc, hncol⟩ := dangle_spec nm hc
      rw [show flattenItem (BlockItem.UnpairedTagClose nm)
          = [BlockItem.UnpairedTagClose nm] from rfl]
      rw [show (([BlockItem.UnpairedTagClose nm] ++ flattenList l : List BlockItem) ++ k)
          = BlockItem.UnpairedTagClose nm :: (flattenList l ++ k) by simp]
      rw [List.foldl_cons]
      cases hsr : linear_search_rev S (BlockItem.UnpairedTagOpen nm) with
      | none =>
        rw [pair_step_close_none S nm hsr]
        obtain ⟨T, h1, h2, h3⟩ := ih hwl (S ++ [BlockItem.UnpairedTagClose nm]) k (by
          intro x hx t'
          rcases List.mem_append.mp hx with hx | hx
          · exact hS x hx t'
          · simp only [List.mem_singleton] at hx
            subst hx
            intro he
            cases he)
        refine ⟨T, h1, ?_, h3⟩
        rw [h2, displayList_append]
        rw [show displayList [BlockItem.UnpairedTagClose nm]
            = displayItem (BlockItem.UnpairedTagClose nm) ++ displayList [] from rfl]
        rw [show displayList (BlockItem.UnpairedTagClose nm :: l)
            = displayItem (BlockItem.UnpairedTagClose nm) ++ displayList l from rfl]
        simp [displayList]
      | some i =>
        obtain ⟨pre, post, hdec, hlen, hps⟩ := pair_step_close_found S nm i hsr hnsrc hncol
        rw [hps]
        obtain ⟨T, h1, h2, h3⟩ := ih hwl (pre ++ [BlockItem.Tagged nm post]) k (by
          intro x hx t'
          rcases List.mem_append.mp hx with hx | hx
          · exact hS x (by rw [hdec]; exact List.mem_append.mpr (Or.inl hx)) t'
          · simp only [List.mem_singleton] at hx
            subst hx
            intro he
            cases he)
        refine ⟨T, h1, ?_, h3⟩
        rw [h2, hdec]
        rw [displayList_append, displayList_append]
        rw [show displayList (BlockItem.UnpairedTagOpen nm :: post)
            = displayItem (BlockItem.UnpairedTagOpen nm) ++ displayList post from rfl]
        rw [show displayList (BlockItem.UnpairedTagClose nm :: l)
            = displayItem (BlockItem.UnpairedTagClose nm) ++ displayList l from rfl]
        rw [show displayList [BlockItem.Tagged nm post]
            = displayItem (BlockItem.Tagged nm post) ++ displayList [] from rfl]
        rw [displayItem_open_dangle nm hc, displayItem_close_dangle nm hc]
        rw [show displayItem (BlockItem.Tagged nm post)
            = "<".data ++ nm ++ ">".data ++ displayList post ++ "</".data ++ nm ++ ">".data
          from rfl]
        simp [displayList, List.append_assoc]
    | Plain t =>
      have hwfit : wfItem (BlockItem.Plain t) = true := hwit
      simp only [List.append_assoc]
      rw [pair_step_wf_item _ hwfit S (flattenList l ++ k)]
      obtain ⟨T, h1, h2, h3⟩ := ih hwl (S ++ [BlockItem.Plain t]) k (by
        intro x hx t'
        rcases List.mem_append.mp hx with hx | hx
        · exact hS x hx t'
        · simp only [List.mem_singleton] at hx
          subst hx
          intro he
          cases he)
      refine ⟨T, h1, ?_, h3⟩
      rw [h2, displayList_append]
      rw [show displayList [BlockItem.Plain t]
          = displayItem (BlockItem.Plain t) ++ displayList [] from rfl]
      rw [show displayList (BlockItem.Plain t :: l)
          = displayItem (BlockItem.Plain t) ++ displayList l from rfl]
      simp [displayList]
    | Comment t =>
      have hwfit : wfItem (BlockItem.Comment t) = true := hwit
      simp only [List.append_assoc]
      rw [pair_step_wf_item _ hwfit S (flattenList l ++ k)]
      obtain ⟨T, h1, h2, h3⟩ := ih hwl (S ++ [BlockItem.Comment t]) k (by
        intro x hx t'
        rcases List.mem_append.mp hx with hx | hx
        · exact hS x hx t'
        · simp only [List.mem_singleton] at hx
          subst hx
          intro he
          cases he)
      refine ⟨T, h1, ?_, h3⟩
      rw [h2, displayList_append]
      rw [show displayList [BlockItem.Comment t]
          = displayItem (BlockItem.Comment t) ++ displayList [] from rfl]
      rw [show displayList (BlockItem.Comment t :: l)
          = displayItem (BlockItem.Comment t) ++ displayList l from rfl]
      simp [displayList]
    | Entity nm =>
      have hwfit : wfItem (BlockItem.Entity nm) = true := hwit
      simp only [List.append_assoc]
      rw [pair_step_wf_item _ hwfit S (flattenList l ++ k)]
      obtain ⟨T, h1, h2, h3⟩ := ih hwl (S ++ [BlockItem.Entity nm]) k (by
        intro x hx t'
        rcases List.mem_append.mp hx with hx | hx
        · exact hS x hx t'
        · simp only [List.mem_singleton] at hx
          subst hx
          intro he
          cases he)
      refine ⟨T, h1, ?_, h3⟩
      rw [h2, displayList_append]
      rw [show displayList [BlockItem.Entity nm]
          = displayItem (BlockItem.Entity nm) ++ displayList [] from rfl]
      rw [show displayList (BlockItem.Entity nm :: l)
          = displayItem (BlockItem.Entity nm) ++ displayList l from rfl]
      simp [displayList]
    | EntityBr =>
      have hwfit : wfItem BlockItem.EntityBr = true := hwit
      simp only [List.append_assoc]
      rw [pair_step_wf_item _ hwfit S (flattenList l ++ k)]
      obtain ⟨T, h1, h2, h3⟩ := ih hwl (S ++ [BlockItem.EntityBr]) k (by
        intro x hx t'
        rcases List.mem_append.mp hx with hx | hx
        · exact hS x hx t'
        · simp only [List.mem_singleton] at hx
          subst hx
          intro he
          cases he)
      refine ⟨T, h1, ?_, h3⟩
      rw [h2, displayList_append]
      rw [show displayList [BlockItem.EntityBr]
          = displayItem BlockItem.EntityBr ++ displayList [] from rfl]
      rw [show displayList (BlockItem.EntityBr :: l)
          = displayItem BlockItem.EntityBr ++ displayList l from rfl]
      simp [displayList]
    | EntityUnk =>
      have hwfit : wfItem BlockItem.EntityUnk = true := hwit
      simp only [List.append_assoc]
      rw [pair_step_wf_item _ hwfit S (flattenList l ++ k)]
      obtain ⟨T, h1, h2, h3⟩ := ih hwl (S ++ [BlockItem.EntityUnk]) k (by
        intro x hx t'
        rcases List.mem_append.mp hx with hx | hx
        · exact hS x hx t'
        · simp only [List.mem_singleton] at hx
          subst hx
          intro he
          cases he)
      refine ⟨T, h1, ?_, h3⟩
      rw [h2, displayList_append]
      rw [show displayList [BlockItem.EntityUnk]
          = displayItem BlockItem.EntityUnk ++ displayList [] from rfl]
      rw [show displayList (BlockItem.EntityUnk :: l)
          = displayItem BlockItem.EntityUnk ++ displayList l from rfl]
      simp [displayList]
    | ExternalLink u t =>
      have hwfit : wfItem (BlockItem.ExternalLink u t) = true := hwit
      simp only [List.append_assoc]
      rw [pair_step_wf_item _ hwfit S (flattenList l ++ k)]
      obtain ⟨T, h1, h2, h3⟩ := ih hwl (S ++ [BlockItem.ExternalLink u t]) k (by
        intro x hx t'
        rcases List.mem_append.mp hx with hx | hx
        · exact hS x hx t'
        · simp only [List.mem_singleton] at hx
          subst hx
          intro he
          cases he)
      refine ⟨T, h1, ?_, h3⟩
      rw [h2, displayList_append]
      rw [show displayList [BlockItem.ExternalLink u t]
          = displayItem (BlockItem.ExternalLink u t) ++ displayList [] from rfl]
      rw [show displayList (BlockItem.ExternalLink u t :: l)
          = displayItem (BlockItem.ExternalLink u t) ++ displayList l from rfl]
      simp [displayList]
    | Tagged nm items =>
      have hwfit : wfItem (BlockItem.Tagged nm items) = true := hwit
      simp only [List.append_assoc]
      rw [pair_step_wf_item _ hwfit S (flattenList l ++ k)]
      obtain ⟨T, h1, h2, h3⟩ := ih hwl (S ++ [BlockItem.Tagged nm items]) k (by
        intro x hx t'
        rcases List.mem_append.mp hx with hx | hx
        · exact hS x hx t'
        · simp only [List.mem_singleton] at hx
          subst hx
          intro he
          cases he)
      refine ⟨T, h1, ?_, h3⟩
      rw [h2, displayList_append]
      rw [show displayList [BlockItem.Tagged nm items]
          = displayItem (BlockItem.Tagged nm items) ++ displayList [] from rfl]
      rw [show displayList (BlockItem.Tagged nm items :: l)
          = displayItem (BlockItem.Tagged nm items) ++ displayList l from rfl]
      simp [displayList]
    | Source t => simp [wfItemTop, wfItem] at hwit

/-- `extract_sources` is the identity (with no sources) on any item list
free of `Source` items, whatever else it holds. -/
theorem extract_sources_nosrc (items : List BlockItem)
    (hns : ∀ x ∈ items, ∀ t, x ≠ BlockItem.Source t) :
    extract_sources items = some (items, []) := by
  unfold extract_sources
  cases hlast : items.getLast? with
  | none => rfl
  | some x =>
    cases x with
    | Plain t =>
      dsimp only
      by_cases ht : t = "]".data
      · rw [if_pos ht]
        cases hsearch : linear_search_rev_by items is_bracket_open with
        | none => rfl
        | some idx =>
          dsimp only
          cases hget : items.get? (idx + 1) with
          | none => rfl
          | some y =>
            cases y with
            | Source s =>
              exfalso
              exact hns _ (List.get?_mem hget) s rfl
            | Tagged a b => rfl
            | Comment a => rfl
            | Entity a => rfl
            | EntityBr => rfl
            | EntityUnk => rfl
            | ExternalLink a b => rfl
            | Plain a => rfl
            | UnpairedTagOpen a => rfl
            | UnpairedTagClose a => rfl
      · rw [if_neg ht]
    | Tagged a b => rfl
    | Comment a => rfl
    | Entity a => rfl
    | EntityBr => rfl
    | EntityUnk => rfl
    | ExternalLink a b => rfl
    | Source a =>
      exfalso
      have hne : items ≠ [] := by
        intro he
        subst he
        cases hlast
      have h2 := List.getLast?_eq_getLast items hne
      rw [h2] at hlast
      injection hlast with h1
      exact hns _ (h1 ▸ List.getLast_mem hne) a rfl
    | UnpairedTagOpen a => rfl
    | UnpairedTagClose a => rfl


/-! ## The claims -/

/-- Claim C1: round-trip identity. For a well-formed block `b` — `wfBlock`
characterizes the parser-producible trees free of unpaired residuals, of
error-marked `Source` items and of the `col`-of-sole-`b` shape — re-parsing
the GCIDE emission of `b` recovers `b` exactly. The frozen claim's weaker
side condition (only "no `UnpairedTagOpen`/`UnpairedTagClose` residuals") is
refuted by `claim_C1_counterexample`; the amendment strengthens
well-formedness to `wfBlock`. -/
theorem claim_C1 (b : Block) (h : wfBlock b = true) :
    parse_block (display_block b) = some b :=
  parse_block_display_block b h

/-- Claim C1, witness: the round trip at a concrete well-formed block. -/
theorem claim_C1_witness :
    wfBlock ⟨[.Plain "foo ".data, .Tagged "i".data [.Plain "bar".data], .EntityBr],
      ["1913 Webster".data]⟩ = true
  ∧ parse_block (display_block ⟨[.Plain "foo ".data, .Tagged "i".data [.Plain "bar".data],
      .EntityBr], ["1913 Webster".data]⟩)
      = some ⟨[.Plain "foo ".data, .Tagged "i".data [.Plain "bar".data], .EntityBr],
          ["1913 Webster".data]⟩ :=
  ⟨by decide, claim_C1 _ (by decide)⟩

/-- Claim C1, counterexample to the frozen statement: the parsed tree of
`<p><col><b><b>y</b></b></col></p>` contains no unpaired residual and no
unknown tag, yet its re-parse differs (the emitted `<col><b>y</b></col>`
triggers the pairer's `col` special case, which deletes the inner `b`). -/
theorem claim_C1_counterexample :
    parse_block "<p><col><b><b>y</b></b></col></p>".data
      = some ⟨[.Tagged "col".data [.Tagged "b".data [.Plain "y".data]]], []⟩
  ∧ parse_block (display_block
        ⟨[.Tagged "col".data [.Tagged "b".data [.Plain "y".data]]], []⟩)
      ≠ some ⟨[.Tagged "col".data [.Tagged "b".data [.Plain "y".data]]], []⟩ := by
  decide

/-- Claim C2: idempotence of emit-parse-emit. It holds on every block in the
extended class `wfBlockD` — well-formed items plus dangle-allowed unpaired
opens and closes among the top-level items — and in particular on entries
containing (dangle-allowed) unpaired residuals, where the re-parsed tree may
genuinely differ from the original (residual pairs re-associate into
`Tagged` nodes) while the re-emitted bytes are identical. It does not hold
"for every e, well-formed or not": `claim_C2_counterexample` refutes the
unrestricted statement. -/
theorem claim_C2 (b : Block) (h : wfBlockD b = true) :
    (parse_block (display_block b)).map display_block = some (display_block b) := by
  obtain ⟨items, sources⟩ := b
  have hitems : wfListTop items = true := by
    simp only [wfBlockD, Bool.and_eq_true] at h
    exact h.1
  have hsrc : ∀ s ∈ sources, s ≠ [] ∧ ∀ c ∈ s, is_not_lt_gt c = true := by
    intro s hs
    simp only [wfBlockD, Bool.and_eq_true] at h
    have h2 : (!s.isEmpty && s.all is_not_lt_gt) = true := by
      rw [List.all_eq_true] at h
      · exact h.2 s hs
    rw [Bool.and_eq_true] at h2
    obtain ⟨ha, hb⟩ := h2
    constructor
    · intro hnil
      subst hnil
      exact absurd ha (by decide)
    · intro c hc
      rw [List.all_eq_true] at hb
      exact hb c hc
  have hpb : ∀ s : Str, parse_block s
      = if (parse_items s).2.isEmpty then process_block_items (parse_items s).1 else none :=
    fun s => rfl
  cases sources with
  | nil =>
    have hdisp : display_block ⟨items, []⟩
        = "<p>".data ++ (displayList items ++ "</p>".data) := by
      simp [display_block]
    have hparse : parse_items ("<p>".data ++ (displayList items ++ "</p>".data))
        = (BlockItem.UnpairedTagOpen "p".data ::
            (flattenList items ++ [BlockItem.UnpairedTagClose "p".data]), []) := by
      rw [show ("<p>".data ++ (displayList items ++ "</p>".data) : Str)
          = "<".data ++ ("p".data ++ (">".data ++ (displayList items ++ "</p>".data)))
        from rfl]
      rw [parse_items_some (block_item_open_tok "p".data _ (by decide))]
      rw [parse_display_top items "</p>".data hitems (by decide)]
      rw [show parse_items "</p>".data = ([BlockItem.UnpairedTagClose "p".data], [])
        from by decide]
    obtain ⟨T, hT1, hT2, hT3⟩ := pair_top items hitems [] [] (by intro x hx; simp at hx)
    have hpair : pair_up_items (flattenList items) = T := by
      unfold pair_up_items
      simpa using hT1
    have hTdisp : displayList T = displayList items := by
      simpa [displayList] using hT2
    rw [hdisp, hpb, hparse]
    dsimp only
    unfold process_block_items
    dsimp only
    rw [if_pos rfl, List.getLast?_concat]
    dsimp only
    rw [if_pos rfl, List.dropLast_concat, hpair, extract_sources_nosrc T hT3]
    simp [display_block, hTdisp]
  | cons s1 ss =>
    have hdisp : display_block ⟨items, s1 :: ss⟩
        = "<p>".data ++ (displayList items
            ++ ("<br/\n[".data ++ (sources_display (s1 :: ss) ++ "]</p>".data))) := by
      simp [display_block]
    have htail : parse_items ("<br/\n[".data ++ (sources_display (s1 :: ss) ++ "]</p>".data))
        = (BlockItem.EntityBr :: BlockItem.Plain "[".data ::
            (srcFlat (s1 :: ss) ++ [BlockItem.Plain "]".data,
              BlockItem.UnpairedTagClose "p".data]), []) := by
      rw [show ("<br/\n[".data ++ (sources_display (s1 :: ss) ++ "]</p>".data) : Str)
          = "<br/\n".data ++ ("[".data ++ (sources_display (s1 :: ss) ++ "]</p>".data))
        from rfl]
      rw [parse_items_some (block_item_br_tok _)]
      rw [parse_items_some (block_item_plain_tok "[".data _ (by decide) (by decide)
        (sources_display_head s1 ss _))]
      rw [sources_display_parse (s1 :: ss) (by simp) hsrc]
    have hparse : parse_items ("<p>".data ++ (displayList items
          ++ ("<br/\n[".data ++ (sources_display (s1 :: ss) ++ "]</p>".data))))
        = (BlockItem.UnpairedTagOpen "p".data ::
            ((flattenList items ++ (BlockItem.EntityBr :: BlockItem.Plain "[".data ::
              (srcFlat (s1 :: ss) ++ [BlockItem.Plain "]".data])))
             ++ [BlockItem.UnpairedTagClose "p".data]), []) := by
      rw [show ("<p>".data ++ (displayList items
            ++ ("<br/\n[".data ++ (sources_display (s1 :: ss) ++ "]</p>".data))) : Str)
          = "<".data ++ ("p".data ++ (">".data ++ (displayList items
            ++ ("<br/\n[".data ++ (sources_display (s1 :: ss) ++ "]</p>".data)))))
        from rfl]
      rw [parse_items_some (block_item_open_tok "p".data _ (by decide))]
      rw [parse_display_top items
        ("<br/\n[".data ++ (sources_display (s1 :: ss) ++ "]</p>".data)) hitems
        (show plain_stop ("<br/\n[".data ++ (sources_display (s1 :: ss) ++ "]</p>".data)) = true
          from plain_stop_lt _)]
      rw [htail]
      simp
    obtain ⟨T, hT1, hT2, hT3⟩ := pair_top items hitems []
      (BlockItem.EntityBr :: BlockItem.Plain "[".data ::
        (srcFlat (s1 :: ss) ++ [BlockItem.Plain "]".data]))
      (by intro x hx; simp at hx)
    have hfold : pair_up_items (flattenList items
          ++ (BlockItem.EntityBr :: BlockItem.Plain "[".data ::
            (srcFlat (s1 :: ss) ++ [BlockItem.Plain "]".data])))
        = T ++ [BlockItem.EntityBr, BlockItem.Plain "[".data]
            ++ srcPaired (s1 :: ss) ++ [BlockItem.Plain "]".data] := by
      unfold pair_up_items
      rw [hT1]
      rw [List.foldl_cons, pair_step_push T _ (fun nm h => by cases h)]
      rw [List.foldl_cons, pair_step_push _ _ (fun nm h => by cases h)]
      rw [src_pair (s1 :: ss) (by simp) ((T ++ [BlockItem.EntityBr])
        ++ [BlockItem.Plain "[".data])]
      simp
    have hTdisp : displayList T = displayList items := by
      simpa [displayList] using hT2
    rw [hdisp, hpb, hparse]
    dsimp only
    unfold process_block_items
    dsimp only
    rw [if_pos rfl, List.getLast?_concat]
    dsimp only
    rw [if_pos rfl, List.dropLast_concat, hfold,
      extract_sources_group T (s1 :: ss) (by simp)]
    simp [display_block, hTdisp]

/-- Claim C2, witness: a block made of two dangle-allowed residuals. It is
outside `wfBlock`, its re-parse yields a *different* tree (the residual pair
re-associates into `Tagged "note" []`), and the re-emitted bytes are
nevertheless identical. -/
theorem claim_C2_witness :
    wfBlockD ⟨[.UnpairedTagOpen "note".data, .UnpairedTagClose "note".data], []⟩ = true
  ∧ wfBlock ⟨[.UnpairedTagOpen "note".data, .UnpairedTagClose "note".data], []⟩ = false
  ∧ parse_block (display_block
        ⟨[.UnpairedTagOpen "note".data, .UnpairedTagClose "note".data], []⟩)
      ≠ some ⟨[.UnpairedTagOpen "note".data, .UnpairedTagClose "note".data], []⟩
  ∧ (parse_block (display_block
        ⟨[.UnpairedTagOpen "note".data, .UnpairedTagClose "note".data], []⟩)).map
        display_block
      = some (display_block
          ⟨[.UnpairedTagOpen "note".data, .UnpairedTagClose "note".data], []⟩) :=
  ⟨by decide, by decide, by decide, claim_C2 _ (by decide)⟩

/-- Claim C2, counterexample to the frozen statement: for
`e = ⟨[Entity "br"], []⟩` the emission `<p><br/</p>` re-parses to `EntityBr`,
which re-emits with an extra newline; for `e = ⟨[UnpairedTagOpen "i"], []⟩`
the emitted `[ERROR->]` marker (whose `>` stops the `is_not!("<>")` lexer)
makes the re-parse fail outright, so no second emission exists at all. -/
theorem claim_C2_counterexample :
    (parse_block (display_block ⟨[.Entity "br".data], []⟩)).map display_block
      ≠ some (display_block ⟨[.Entity "br".data], []⟩)
  ∧ (parse_block (display_block ⟨[.UnpairedTagOpen "i".data], []⟩)).map display_block
      ≠ some (display_block ⟨[.UnpairedTagOpen "i".data], []⟩) := by
  decide

/-- Claim C3: the iterators never panic. Refuted: on the four-token block
`<p><ent>A</ent></p>` the entry builder reaches `ent_idx + 1 = items.len()`
and the access `block.items[ent_idx + 1]` panics (index out of bounds), so
not every input produces output. -/
theorem claim_C3 : entryBuilderNext none "<p><ent>A</ent></p>".data = .panicked := by
  rfl

/-- Claim C4: uniform pairing. For every tag name other than `source` and
`col`, reducing an `UnpairedTagClose nm` against the nearest `UnpairedTagOpen
nm` on the stack depends only on name equality: the enclosed items become
`Tagged nm inner` with nothing discarded, renamed or consulted in the
dangle-allowed set. The frozen claim's "no tag name receives special
treatment (including \"source\" and \"col\")" is refuted by
`claim_C4_counterexample`; the amendment exempts those two names. -/
theorem claim_C4 (s inner : List BlockItem) (nm : Str)
    (h1 : nm ≠ "source".data) (h2 : nm ≠ "col".data)
    (h3 : ∀ x ∈ inner, (x == BlockItem.UnpairedTagOpen nm) = false) :
    pair_step (s ++ .UnpairedTagOpen nm :: inner) (.UnpairedTagClose nm)
      = s ++ [.Tagged nm inner] :=
  pair_step_close_generic s inner nm h3 h1 (fun hc => h2 hc.1)

/-- Claim C4, witness: uniform pairing at the name `note`. -/
theorem claim_C4_witness :
    pair_step ([] ++ BlockItem.UnpairedTagOpen "note".data :: [BlockItem.Plain "x".data])
        (.UnpairedTagClose "note".data)
      = [] ++ [BlockItem.Tagged "note".data [BlockItem.Plain "x".data]] :=
  claim_C4 [] [.Plain "x".data] "note".data (by decide) (by decide) (by decide)

/-- Claim C4, counterexample to the frozen statement: the names `source` and
`col` are special-cased. `<source></source>` pairs to an error `Source` item
(not `Tagged "source" []` as the generic rule would), and `<col>` over a sole
`b` child steals that child's items, unlike the same input with `col` renamed
to `nol`. -/
theorem claim_C4_counterexample :
    pair_up_items [.UnpairedTagOpen "source".data, .UnpairedTagClose "source".data]
      = [.Source err_plaintext]
  ∧ pair_up_items [.UnpairedTagOpen "note".data, .UnpairedTagClose "note".data]
      = [.Tagged "note".data []]
  ∧ pair_up_items [.UnpairedTagOpen "col".data, .UnpairedTagOpen "b".data, .Plain "x".data,
        .UnpairedTagClose "b".data, .UnpairedTagClose "col".data]
      = [.Tagged "col".data [.Plain "x".data]]
  ∧ pair_up_items [.UnpairedTagOpen "nol".data, .UnpairedTagOpen "b".data, .Plain "x".data,
        .UnpairedTagClose "b".data, .UnpairedTagClose "nol".data]
      = [.Tagged "nol".data [.Tagged "b".data [.Plain "x".data]]] := by
  decide

/-- Claim C5: entity names. The lexer of `src/parser.rs` uses
`alphanumeric1`, so `<` name `/` lexes to `Entity name` exactly for nonempty
alphanumeric names other than `br` (which lexes to `EntityBr`); names
containing `:` or `_`, admitted by the spec's alphabet `[0-9A-Za-z:_]+`, are
rejected — see `claim_C5_counterexample`. -/
theorem claim_C5 (n rest : Str) (h : alnum_name n = true) (hbr : n ≠ "br".data) :
    block_item ("<".data ++ (n ++ ("/".data ++ rest))) = some (.Entity n, rest) :=
  block_item_entity_tok n rest h hbr

/-- Claim C5, witness: a concrete alphanumeric entity. -/
theorem claim_C5_witness :
    block_item ("<".data ++ ("sect".data ++ ("/".data ++ "x".data)))
      = some (.Entity "sect".data, "x".data) :=
  claim_C5 "sect".data "x".data (by decide) (by decide)

/-- Claim C5, counterexample to the frozen statement: `:` and `_` are not in
`alphanumeric1`, so `<a:b/` and `<x_y/` fail to lex as any block item (and
`<br/` lexes to `EntityBr`, not `Entity "br"`). -/
theorem claim_C5_counterexample :
    block_item "<a:b/x".data = none
  ∧ block_item "<x_y/z".data = none
  ∧ block_item "<br/z".data = some (.EntityBr, "z".data) := by
  decide

/-- Claim C7: LIFO pairing of cross-nested tags. For `x ∉ {source}` and
`x ≠ y`, the token sequence of `<x><y></x></y>` pairs exactly once — `</x>`
captures the nearest open, yielding `Tagged x [UnpairedTagOpen y]` — and
`</y>` finds no open left, so both `y` items survive as residuals. For
`x = "source"` the frozen statement fails (`claim_C7_counterexample`): the
enclosed `<y>` is discarded, no pair is formed. -/
theorem claim_C7 (x y : Str) (hxy : x ≠ y) (hxsrc : x ≠ "source".data) :
    pair_up_items [.UnpairedTagOpen x, .UnpairedTagOpen y,
        .UnpairedTagClose x, .UnpairedTagClose y]
      = [.Tagged x [.UnpairedTagOpen y], .UnpairedTagClose y] := by
  have h3 : pair_step [BlockItem.UnpairedTagOpen x, BlockItem.UnpairedTagOpen y]
      (.UnpairedTagClose x) = [BlockItem.Tagged x [BlockItem.UnpairedTagOpen y]] := by
    have h := pair_step_close_generic [] [BlockItem.UnpairedTagOpen y] x
      (by
        intro z hz
        simp only [List.mem_singleton] at hz
        subst hz
        rw [beq_eq_false_iff_ne]
        intro he
        exact hxy (congrArg (fun it => match it with
          | BlockItem.UnpairedTagOpen nm => nm
          | _ => []) he).symm)
      hxsrc
      (by rintro ⟨-, bi, hbi⟩; cases hbi)
    simpa using h
  have h4 : pair_step [BlockItem.Tagged x [BlockItem.UnpairedTagOpen y]]
      (.UnpairedTagClose y)
      = [BlockItem.Tagged x [BlockItem.UnpairedTagOpen y], BlockItem.UnpairedTagClose y] := by
    unfold pair_step
    dsimp only
    rw [show linear_search_rev [BlockItem.Tagged x [BlockItem.UnpairedTagOpen y]]
          (BlockItem.UnpairedTagOpen y) = none from
      lsr_all_false (by
        intro z hz
        simp only [List.mem_singleton] at hz
        subst hz
        rfl)]
    rfl
  unfold pair_up_items
  rw [List.foldl_cons, List.foldl_cons, List.foldl_cons, List.foldl_cons]
  rw [show pair_step [] (BlockItem.UnpairedTagOpen x) = [BlockItem.UnpairedTagOpen x] from rfl]
  rw [show pair_step [BlockItem.UnpairedTagOpen x] (BlockItem.UnpairedTagOpen y)
      = [BlockItem.UnpairedTagOpen x, BlockItem.UnpairedTagOpen y] from rfl]
  rw [h3, h4]
  rfl

/-- Claim C7, witness: cross-nested `<i><b></i></b>`. -/
theorem claim_C7_witness :
    pair_up_items [.UnpairedTagOpen "i".data, .UnpairedTagOpen "b".data,
        .UnpairedTagClose "i".data, .UnpairedTagClose "b".data]
      = [.Tagged "i".data [.UnpairedTagOpen "b".data], .UnpairedTagClose "b".data] :=
  claim_C7 "i".data "b".data (by decide) (by decide)

/-- Claim C7, counterexample to the frozen statement: with `x = "source"`,
`<source><i></source></i>` forms no `Tagged` pair at all — the enclosed
`<i>` open is discarded and replaced by an error `Source` item. -/
theorem claim_C7_counterexample :
    pair_up_items [.UnpairedTagOpen "source".data, .UnpairedTagOpen "i".data,
        .UnpairedTagClose "source".data, .UnpairedTagClose "i".data]
      = [.Source err_plaintext, .UnpairedTagClose "i".data]
  ∧ pair_up_items [.UnpairedTagOpen "source".data, .UnpairedTagOpen "i".data,
        .UnpairedTagClose "source".data, .UnpairedTagClose "i".data]
      ≠ [.Tagged "source".data [.UnpairedTagOpen "i".data], .UnpairedTagClose "i".data] := by
  decide

/-- Claim C10: the `source` error path discards enclosed content. When an
`UnpairedTagClose "source"` finds its nearest `UnpairedTagOpen "source"` and
the enclosed span is not exactly one `Plain` item, the pairer truncates the
stack to the open's index and pushes `Source "[ERROR->]plaintext"`: nothing
of the enclosed span reaches the output. -/
theorem claim_C10 (s inner : List BlockItem)
    (hno : ∀ x ∈ inner, (x == BlockItem.UnpairedTagOpen "source".data) = false)
    (hshape : ¬ ∃ t, inner = [BlockItem.Plain t]) :
    pair_step (s ++ .UnpairedTagOpen "source".data :: inner) (.UnpairedTagClose "source".data)
      = s ++ [.Source err_plaintext] := by
  have hsearch : linear_search_rev (s ++ .UnpairedTagOpen "source".data :: inner)
      (.UnpairedTagOpen "source".data) = some s.length := by
    unfold linear_search_rev
    rw [show (s ++ .UnpairedTagOpen "source".data :: inner : List BlockItem)
        = (s ++ [BlockItem.UnpairedTagOpen "source".data]) ++ inner by simp]
    rw [lsr_append_none (lsr_all_false hno)]
    rw [@lsr_append_some _ s _ _ _ (lsr_single_true (by simp))]
    simp
  unfold pair_step
  dsimp only
  rw [hsearch]
  dsimp only
  rw [if_pos rfl]
  by_cases hlen : s.length + 2
      = (s ++ BlockItem.UnpairedTagOpen "source".data :: inner).length
  · obtain ⟨z, rfl⟩ : ∃ z, inner = [z] := by
      have hl : inner.length = 1 := by
        have h' := hlen
        simp only [List.length_append, List.length_cons] at h'
        omega
      cases inner with
      | nil => simp at hl
      | cons a t =>
        cases t with
        | nil => exact ⟨a, rfl⟩
        | cons b t2 => simp at hl
    rw [if_pos hlen]
    have hlast : (s ++ BlockItem.UnpairedTagOpen "source".data :: [z]).getLast? = some z := by
      rw [show (s ++ BlockItem.UnpairedTagOpen "source".data :: [z] : List BlockItem)
          = (s ++ [BlockItem.UnpairedTagOpen "source".data]) ++ [z] by simp]
      exact List.getLast?_concat _
    rw [hlast]
    have htake : (s ++ BlockItem.UnpairedTagOpen "source".data :: [z]).take s.length = s := by
      have h' := List.take_left s (BlockItem.UnpairedTagOpen "source".data :: [z])
      simpa using h'
    cases z with
    | Plain t => exact absurd ⟨t, rfl⟩ hshape
    | Tagged a b => dsimp only; rw [htake]
    | Comment a => dsimp only; rw [htake]
    | Entity a => dsimp only; rw [htake]
    | EntityBr => dsimp only; rw [htake]
    | EntityUnk => dsimp only; rw [htake]
    | ExternalLink a b => dsimp only; rw [htake]
    | Source a => dsimp only; rw [htake]
    | UnpairedTagOpen a => dsimp only; rw [htake]
    | UnpairedTagClose a => dsimp only; rw [htake]
  · rw [if_neg hlen]
    have htake : (s ++ BlockItem.UnpairedTagOpen "source".data :: inner).take s.length = s := by
      have h' := List.take_left s (BlockItem.UnpairedTagOpen "source".data :: inner)
      simpa using h'
    rw [htake]

/-- Claim C10, witness: a two-item enclosed span is discarded. -/
theorem claim_C10_witness :
    (¬ ∃ t, ([BlockItem.EntityBr] : List BlockItem) = [BlockItem.Plain t])
  ∧ pair_step ([BlockItem.Plain "a".data]
        ++ BlockItem.UnpairedTagOpen "source".data :: [BlockItem.EntityBr])
        (.UnpairedTagClose "source".data)
      = [BlockItem.Plain "a".data] ++ [BlockItem.Source err_plaintext] :=
  ⟨by rintro ⟨t, ht⟩; simp at ht,
   claim_C10 [.Plain "a".data] [.EntityBr] (by decide) (by rintro ⟨t, ht⟩; simp at ht)⟩

theorem block_item_br_nonl (rest : Str) (h : head_fails (fun c => c == '\n') rest = true) :
    block_item ("<br/".data ++ rest) = some (.EntityBr, rest) := by
  have hplain : plain ("<br/".data ++ rest) = none := plain_head_fail (by decide) _
  have hopen : open_tag ("<br/".data ++ rest) = none := by
    unfold open_tag
    rw [show tag "<".data ("<br/".data ++ rest) = some ('b' :: 'r' :: '/' :: rest)
      from tag_self "<".data ('b' :: 'r' :: '/' :: rest)]
    dsimp only
    rw [show alphanumeric1 ('b' :: 'r' :: '/' :: rest)
        = some (['b', 'r'], '/' :: rest)
      from alphanumeric1_append ['b', 'r'] ('/' :: rest) (by decide) (by decide)
        (head_fails_cons (by decide) _)]
    dsimp only
    rw [show tag ">".data ('/' :: rest) = none
      from tag_fail (isPrefixOf_pos1_false (by decide))]
  have hclose : close_tag ("<br/".data ++ rest) = none := by
    unfold close_tag
    rw [show tag "</".data ("<br/".data ++ rest) = none
      from tag_fail (isPrefixOf_pos2_false (by decide))]
  have hent : entity ("<br/".data ++ rest) = some (.EntityBr, rest) := by
    unfold entity
    rw [show tag "<?/".data ("<br/".data ++ rest) = none
      from tag_fail (isPrefixOf_pos2_false (by decide))]
    rw [show tag "<br/".data ("<br/".data ++ rest) = some rest
      from tag_self "<br/".data rest]
    dsimp only
    split
    · simp [head_fails] at h
    · rfl
  unfold block_item
  rw [hplain, hopen, hclose, hent]

/-- Claim C6: the lexer accepts `<br/` with or without a following newline,
but both lex to the same bare `EntityBr`, and the emitter always writes
`<br/\n`: the presence or absence of the newline is *not* preserved
(`claim_C6_counterexample` re-emits a newline that the input lacked). The
amendment keeps the acceptance half and replaces preservation by the actual
normalization. -/
theorem claim_C6 (rest : Str) (h : head_fails (fun c => c == '\n') rest = true) :
    block_item ("<br/".data ++ rest) = some (.EntityBr, rest)
  ∧ block_item ("<br/\n".data ++ rest) = some (.EntityBr, rest)
  ∧ displayItem .EntityBr = "<br/\n".data :=
  ⟨block_item_br_nonl rest h, block_item_br_tok rest, rfl⟩

/-- Claim C6, witness: both spellings at a concrete remainder. -/
theorem claim_C6_witness :
    head_fails (fun c => c == '\n') "x".data = true
  ∧ (block_item ("<br/".data ++ "x".data) = some (.EntityBr, "x".data)
      ∧ block_item ("<br/\n".data ++ "x".data) = some (.EntityBr, "x".data)
      ∧ displayItem .EntityBr = "<br/\n".data) :=
  ⟨by decide, claim_C6 "x".data (by decide)⟩

/-- Claim C6, counterexample to the frozen statement: the input block
`<p>a<br/</p>` has no newline after `<br/`, parses successfully, and
re-emits as `<p>a<br/\n</p>` — the newline is inserted, not preserved. -/
theorem claim_C6_counterexample :
    (parse_block "<p>a<br/</p>".data).map display_block = some "<p>a<br/\n</p>".data
  ∧ "<p>a<br/\n</p>".data ≠ "<p>a<br/</p>".data := by
  decide

theorem err_isPrefixOf_append (t : Str) :
    "[ERROR->]".data.isPrefixOf ("[ERROR->]".data ++ t) = true :=
  isPrefixOf_append_self _ t

theorem err_isPrefixOf_lt (t : Str) :
    "[ERROR->]".data.isPrefixOf ('<' :: t) = false := by
  simp [List.isPrefixOf]

theorem write_tag_open_head (n : Str) (src : Option Str) :
    ∃ u, write_tag_open n src = '<' :: u := by
  cases src with
  | none => exact ⟨n ++ ">".data, rfl⟩
  | some s =>
    unfold write_tag_open
    dsimp only
    by_cases hpe : n = "p".data ∨ n = "extra".data
    · rw [if_pos hpe]
      exact ⟨n ++ (" source=\"".data ++ (s ++ "\">".data)), by simp⟩
    · rw [if_neg hpe]
      exact ⟨n ++ (" [ERROR->]source=\"".data ++ (s ++ "\">".data)), by simp⟩

/-- Claim C8: the error marker on dangling tags. The *leading* `[ERROR->]`
marker appears on `UnpairedTagOpen`/`UnpairedTagClose` exactly when the name
is outside the dangle-allowed set {collapse, cs, note, usage}, and a
dangle-allowed close (or a dangle-allowed open without source attribute)
carries no marker at all. But the frozen "no error marker at all" fails for
a dangle-allowed *open with a source attribute*: `write_tag_open` embeds an
inline ` [ERROR->]source="…"` for every tag name outside {p, extra}
(`claim_C8_counterexample`); the amendment records that emission. -/
theorem claim_C8 (n : Str) (src : Option Str) (s : Str) :
    ("[ERROR->]".data.isPrefixOf (cide_unpaired_open n src) = !dangle_allowed.contains n)
  ∧ ("[ERROR->]".data.isPrefixOf (cide_unpaired_close n) = !dangle_allowed.contains n)
  ∧ (dangle_allowed.contains n = true → cide_unpaired_close n = "</".data ++ n ++ ">".data)
  ∧ (dangle_allowed.contains n = true → cide_unpaired_open n none = "<".data ++ n ++ ">".data)
  ∧ (dangle_allowed.contains n = true →
      cide_unpaired_open n (some s)
        = "<".data ++ n ++ " [ERROR->]source=\"".data ++ s ++ "\">".data) := by
  have hmem : dangle_allowed.contains n = true →
      n = "collapse".data ∨ n = "cs".data ∨ n = "note".data ∨ n = "usage".data := by
    intro hc
    have hm : n ∈ dangle_allowed := by simpa using hc
    simpa [dangle_allowed] using hm
  refine ⟨?_, ?_, ?_, ?_, ?_⟩
  · obtain ⟨u, hu⟩ := write_tag_open_head n src
    unfold cide_unpaired_open
    cases hc : dangle_allowed.contains n with
    | false =>
      rw [if_neg Bool.false_ne_true]
      rw [err_isPrefixOf_append]
      rfl
    | true =>
      rw [if_pos rfl, List.nil_append, hu, err_isPrefixOf_lt]
      rfl
  · unfold cide_unpaired_close
    cases hc : dangle_allowed.contains n with
    | false =>
      rw [if_neg Bool.false_ne_true]
      rw [show ("[ERROR->]</".data ++ n ++ ">".data : Str)
          = "[ERROR->]".data ++ ("</".data ++ n ++ ">".data) by simp]
      rw [err_isPrefixOf_append]
      rfl
    | true =>
      rw [if_pos rfl]
      rw [show ("</".data ++ n ++ ">".data : Str) = '<' :: ('/' :: (n ++ ">".data)) by simp]
      rw [err_isPrefixOf_lt]
      rfl
  · intro hc
    unfold cide_unpaired_close
    rw [if_pos hc]
  · intro hc
    unfold cide_unpaired_open
    rw [if_pos hc, List.nil_append]
    rfl
  · intro hc
    unfold cide_unpaired_open
    rw [if_pos hc, List.nil_append]
    unfold write_tag_open
    dsimp only
    rcases hmem hc with rfl | rfl | rfl | rfl <;>
      · rw [if_neg (by rintro (h | h) <;> cases h)]

/-- Claim C8, witness: the name `note` at a concrete source attribute. -/
theorem claim_C8_witness :
    dangle_allowed.contains "note".data = true
  ∧ cide_unpaired_open "note".data (some "1913".data)
      = "<".data ++ "note".data ++ " [ERROR->]source=\"".data ++ "1913".data ++ "\">".data :=
  ⟨by decide, (claim_C8 "note".data (some "1913".data) "1913".data).2.2.2.2 (by decide)⟩

/-- Claim C8, counterexample to the frozen statement: `note` is
dangle-allowed, yet a dangling `note` open that carries a source attribute
is emitted *with* an error marker (inline, from `write_tag_open`). -/
theorem claim_C8_counterexample :
    dangle_allowed.contains "note".data = true
  ∧ hasInfix "[ERROR->]".data (cide_unpaired_open "note".data (some "1913".data)) = true := by
  decide

/-- Claim C9: HTML emission of plain text. In a non-`pre` context the
typographic substitutions run (straight apostrophe to U+2019, a four-hyphen
run to three U+23AF, remaining `--` to the em-dash U+2014) and `&` is
escaped to `&amp;`; inside `pre` the typography is skipped while the `&`
escape still applies. -/
theorem claim_C9 :
    fmt_html_plain_text none "--".data = "—".data
  ∧ fmt_html_plain_text none "----".data = "⎯⎯⎯".data
  ∧ fmt_html_plain_text none "it's".data = "it’s".data
  ∧ fmt_html_plain_text none "a&b".data = "a&amp;b".data
  ∧ fmt_html_plain_text (some "pre".data) "--'".data = "--'".data
  ∧ fmt_html_plain_text (some "pre".data) "a&b".data = "a&amp;b".data
  ∧ (∀ t, fmt_html_plain_text (some "pre".data) t = replace "&".data "&amp;".data t)
  ∧ (∀ t, fmt_html_plain_text none t
      = replace "&".data "&amp;".data (process_symbols_in_text t)) := by
  refine ⟨by decide, by decide, by decide, by decide, by decide, by decide, ?_, fun t => rfl⟩
  intro t
  unfold fmt_html_plain_text
  dsimp only
  rw [if_pos rfl]

end Gcide
